import Mathlib

set_option linter.unusedVariables false

/-!
Verification of the FeatherPad shell-syntax classification core.

The definitions below are a shallow embedding of the C++ sources
`featherpad/highlighter/highlighter-sh.cpp`, `featherpad/syntax.cpp` and
`featherpad/encoding.cpp`.  Lines of text are `List Char`, Qt character
formats are the `Fmt` type, indices are `Int` (Qt uses `int` with `-1` for
"not found"), and the per-block user data `TextBlockData` is `TBData`.
Helper routines that live in parts of the repository outside the provided
sources (highlighter.cpp / highlighter.h) are modelled from the spec and
say so in their doc comments.
-/

/-- Character formats used by the highlighter. The constructors mirror the
QTextCharFormat members of the source (neutralFormat, commentFormat,
urlFormat, quoteFormat, altQuoteFormat, urlInsideQuoteFormat); dflt stands
for the default, not-yet-set format of a freshly rehighlighted block. -/
inductive Fmt where
  | dflt
  | neutral
  | comment
  | url
  | quote
  | altQuote
  | urlInsideQuote
deriving DecidableEq

abbrev Text := List Char

/-- The double-quote character. -/
def dqC : Char := Char.ofNat 34

/-- The single-quote character. -/
def sqC : Char := Char.ofNat 39

/-- The backslash character. -/
def bsC : Char := Char.ofNat 92

/-- QString::at with a harmless default outside the valid range (the C++
code only dereferences in-range positions). -/
def charAt (t : Text) (i : Int) : Char :=
  if i < 0 then ' ' else t.getD i.toNat ' '

def textLen (t : Text) : Int := (t.length : Int)

/-- Position scan kernel: first position at or after j whose character
satisfies p, as an Int, -1 when there is none. Structurally recursive on a
fuel that the wrappers instantiate with t.length + 1, which always covers
the whole scan. -/
def findFromGo (p : Char → Bool) (t : Text) : Nat → Nat → Int
  | 0, _ => -1
  | fuel + 1, j =>
    if h : j < t.length then
      if p (t.get ⟨j, h⟩) then (j : Int) else findFromGo p t fuel (j + 1)
    else -1

/-- QString::indexOf for a character class, from a Nat position. -/
def findFromNat (p : Char → Bool) (t : Text) (j : Nat) : Int :=
  findFromGo p t (t.length + 1) j

def indexOfFrom (p : Char → Bool) (t : Text) (i : Int) : Int :=
  findFromNat p t i.toNat

/-- QSyntaxHighlighter::setFormat over the formats array: positions in
[start, start+count) receive f, everything else is unchanged. -/
def paintAux (f : Fmt) (start stop : Int) : Int → List Fmt → List Fmt
  | _, [] => []
  | i, g :: rest => (if start ≤ i ∧ i < stop then f else g) :: paintAux f start stop (i + 1) rest

def paint (fs : List Fmt) (start count : Int) (f : Fmt) : List Fmt :=
  paintAux f start (start + count) 0 fs

def paintKeepAux (f keep : Fmt) (start stop : Int) : Int → List Fmt → List Fmt
  | _, [] => []
  | i, g :: rest =>
      (if start ≤ i ∧ i < stop ∧ g ≠ keep then f else g) :: paintKeepAux f keep start stop (i + 1) rest

/-- Modelled from the spec: Highlighter::setFormatWithoutOverwrite lives in
highlighter.cpp, which is not under src/.  It applies the new format to the
range while leaving alone the characters already carrying the protected
format (here: the neutral format laid down for command-substitution text),
which is how the quote overlay of §4.1 step 3 avoids clobbering the inner
substitution formatting. -/
def setFormatWithoutOverwrite (fs : List Fmt) (start count : Int) (f keep : Fmt) : List Fmt :=
  paintKeepAux f keep start (start + count) 0 fs

/-- QSyntaxHighlighter::format at a position; default outside the range. -/
def fmtAt (fs : List Fmt) (i : Int) : Fmt :=
  if i < 0 then Fmt.dflt else fs.getD i.toNat Fmt.dflt

/-- Number of consecutive backslashes immediately before Nat position j. -/
def backslashRun (t : Text) : Nat → Nat
  | 0 => 0
  | j + 1 => if charAt t j = bsC then backslashRun t j + 1 else 0

/-- Modelled from the spec: Highlighter::isEscapedQuote is defined in
highlighter.cpp, which is not under src/; the spec only prescribes that
escaped quote markers are skipped (§4.1 step 2, escape rule). A marker is
escaped when preceded by an odd number of backslashes. -/
def isEscapedQuote (t : Text) (pos : Int) (isStartQuote : Bool) : Bool :=
  if pos < 0 ∨ textLen t ≤ pos then false
  else decide ((backslashRun t pos.toNat) % 2 = 1)

/-- Modelled from the spec: Highlighter::isEscapedChar is defined in
highlighter.cpp, which is not under src/; same backslash escape rule. -/
def isEscapedChar (t : Text) (pos : Int) : Bool :=
  isEscapedQuote t pos true

/-- Modelled from the spec: the numeric block-state constants are declared
in highlighter.h, which is not under src/.  The spec (§3 LexState, §9)
fixes the closed set of continuation modes; distinct integers are chosen
for them here, with the default Qt state -1 and the driver's initial state
0 both denoting Normal. -/
def doubleQuoteState : Int := 3

def singleQuoteState : Int := 4

def SH_DoubleQuoteState : Int := 5

def SH_SingleQuoteState : Int := 6

def SH_MixedDoubleQuoteState : Int := 7

def SH_MixedSingleQuoteState : Int := 8

def endState : Int := 9

/-- Modelled from the spec: the state value recorded when a heredoc opens
(§3: a heredoc-continuation marker; highlighter.cpp keeps such states
outside [-1, endState)). -/
def hereDocOpenState : Int := -2

/-- The quote regular expressions of the source: mixedQuoteMark matches
either quote, quoteMark the double quote, singleQuoteMark the single
quote. -/
inductive QE where
  | mixed
  | dbl
  | sngl
deriving DecidableEq

def qexprChar : QE → Char → Bool
  | QE.mixed, c => c == dqC || c == sqC
  | QE.dbl, c => c == dqC
  | QE.sngl, c => c == sqC

/-- First unescaped quote of the requested kind at or after Nat position k
(used by the modelled isQuoted). -/
def nextQuoteGo (t : Text) (kind : Option Char) : Nat → Nat → Int
  | 0, _ => -1
  | fuel + 1, k =>
    if h : k < t.length then
      let c := t.get ⟨k, h⟩
      let hit : Bool :=
        match kind with
        | none => c == dqC || c == sqC
        | some q => c == q
      if hit ∧ ¬ isEscapedQuote t (k : Int) true
      then (k : Int)
      else nextQuoteGo t kind fuel (k + 1)
    else -1

def nextQuote (t : Text) (kind : Option Char) (k : Nat) : Int :=
  nextQuoteGo t kind (t.length + 1) k

def quotedPairsGo (t : Text) : Nat → Nat → List (Int × Int)
  | 0, _ => []
  | fuel + 1, k =>
    let o := nextQuote t none k
    if o = -1 then []
    else
      let c := nextQuote t (some (charAt t o)) (o.toNat + 1)
      if c = -1 then []
      else (o, c) :: quotedPairsGo t fuel (c.toNat + 1)

/-- Complete quote pairs of a line, scanned left to right. -/
def quotedPairs (t : Text) : List (Int × Int) :=
  quotedPairsGo t (t.length + 1) 0

/-- Modelled from the spec: Highlighter::isQuoted is defined in
highlighter.cpp, which is not under src/.  A position counts as quoted only
when it falls inside a completed quote pair, so a heredoc delimiter written
after an unterminated quote is still recognized (§4.1 step 3 and
Scenario C). -/
def isQuoted (t : Text) (pos : Int) (isStart : Bool) : Bool :=
  (quotedPairs t).any fun pr => decide (pr.1 ≤ pos ∧ pos ≤ pr.2)

def isWordChar (c : Char) : Bool :=
  c.isAlpha || c.isDigit || c == '_'

/-- Modelled from the spec: the hereDocDelimiter regular expression is
built in highlighter.cpp, which is not under src/; the spec's
heredoc-delimiter pattern is two angle brackets followed by a label
(§4.1 step 3). -/
def hereDocDelimMatch (t : Text) (i : Int) : Bool :=
  decide (charAt t i = '<' ∧ charAt t (i + 1) = '<' ∧ isWordChar (charAt t (i + 2)) = true)

def hereDocDelimGo (t : Text) : Nat → Nat → Int
  | 0, _ => -1
  | fuel + 1, k =>
    if k < t.length then
      if hereDocDelimMatch t (k : Int) then (k : Int) else hereDocDelimGo t fuel (k + 1)
    else -1

def hereDocDelimFrom (t : Text) (k : Nat) : Int :=
  hereDocDelimGo t (t.length + 1) k

/-- The loop of SH_MultiLineQuote lines 41-44: skip heredoc delimiter
occurrences that are quoted. -/
def hereDocDelimSkipQuoted (t : Text) : Nat → Int → Int
  | 0, p => p
  | fuel + 1, p =>
    if p > -1 ∧ isQuoted t p true then
      hereDocDelimSkipQuoted t fuel (hereDocDelimFrom t (p + 2).toNat)
    else p

/-- Highlighter::SH_SkipQuote (highlighter-sh.cpp lines 173-181). -/
def SH_SkipQuote (t : Text) (fs : List Fmt) (pos : Int) (isStartQuote : Bool) : Bool :=
  if isEscapedQuote t pos isStartQuote then true
  else
    let fmt := fmtAt fs pos
    decide (fmt = Fmt.neutral ∨ fmt = Fmt.comment ∨ fmt = Fmt.url ∨ fmt = Fmt.quote ∨
      fmt = Fmt.altQuote ∨ fmt = Fmt.urlInsideQuote)

/-- The idiom `index = indexOf(expr, start); while (SH_SkipQuote(index)) index = indexOf(expr, index+1)`
of the source, with the skip test applied to the current candidate. -/
def skipLoop (t : Text) (fs : List Fmt) (e : QE) (isStart : Bool) : Nat → Int → Int
  | 0, idx => idx
  | fuel + 1, idx =>
    if SH_SkipQuote t fs idx isStart then
      skipLoop t fs e isStart fuel (indexOfFrom (qexprChar e) t (idx + 1))
    else idx

/-- Per-block user data TextBlockData, restricted to the fields the shell
highlighter uses: openNests, openQuotes, labelInfo and the ambiguity
property of Scenario C. -/
structure TBData where
  openNests : Int := 0
  openQuotes : Finset Int := ∅
  labelInfo : Text := []
  property : Bool := false
deriving DecidableEq

/-- The mutable highlighter context of one block: the per-character formats,
the current block state and the current block's data. -/
structure HL where
  fmts : List Fmt
  blockState : Int
  data : TBData
deriving DecidableEq

/-- The local state of Highlighter::formatInsideCommand: scan position,
open nest count, set of nest depths with an open double quote, parenthesis
depth and the two scan flags. -/
structure ScanSt where
  fmts : List Fmt
  blockState : Int
  idx : Int
  nest : Int
  quotes : Finset Int
  paren : Int
  inComment : Bool
  dquoted : Bool
deriving DecidableEq

/-- The single-quote search of handleSingleQuote lines 305-308: indexOf from
a start position, skipping escaped closers. -/
def findSQskipEsc (t : Text) : Nat → Int → Int
  | 0, e => e
  | fuel + 1, e =>
    if isEscapedQuote t e false then
      findSQskipEsc t fuel (indexOfFrom (qexprChar QE.sngl) t (e + 1))
    else e

def sqEndFrom (t : Text) (start : Int) : Int :=
  findSQskipEsc t (t.length + 2) (indexOfFrom (qexprChar QE.sngl) t start)

/-- Highlighter::handleSingleQuote (highlighter-sh.cpp lines 279-322). -/
def handleSingleQuote (t : Text) (isHDS : Bool) (st : ScanSt) : ScanSt :=
  if st.inComment then
    { st with fmts := paint st.fmts st.idx 1 Fmt.comment, idx := st.idx + 1 }
  else if st.dquoted then
    { st with fmts := paint st.fmts st.idx 1 Fmt.quote, idx := st.idx + 1 }
  else if isEscapedQuote t st.idx true then
    { st with idx := st.idx + 1 }
  else
    let e := sqEndFrom t (st.idx + 1)
    if e = -1 then
      { st with fmts := paint st.fmts st.idx (textLen t - st.idx) Fmt.altQuote,
                blockState := if ¬ isHDS then SH_SingleQuoteState else st.blockState,
                idx := textLen t }
    else
      { st with fmts := paint st.fmts st.idx (e - st.idx + 1) Fmt.altQuote, idx := e + 1 }

/-- Highlighter::handleDoubleQuote (highlighter-sh.cpp lines 324-337). -/
def handleDoubleQuote (t : Text) (st : ScanSt) : ScanSt :=
  if st.inComment then
    { st with fmts := paint st.fmts st.idx 1 Fmt.comment, idx := st.idx + 1 }
  else if ¬ isEscapedQuote t st.idx true then
    { st with dquoted := ¬ st.dquoted, fmts := paint st.fmts st.idx 1 Fmt.quote,
              idx := st.idx + 1 }
  else
    { st with idx := st.idx + 1 }

/-- Highlighter::handleOpenParenthesis (highlighter-sh.cpp lines 373-387). -/
def handleOpenParenthesis (t : Text) (st : ScanSt) : ScanSt :=
  if st.dquoted then
    { st with fmts := paint st.fmts st.idx 1 Fmt.quote, idx := st.idx + 1 }
  else if st.inComment then
    { st with fmts := paint st.fmts st.idx 1 Fmt.comment, idx := st.idx + 1 }
  else
    let st1 := { st with fmts := paint st.fmts st.idx 1 Fmt.neutral }
    let st2 := if ¬ isEscapedChar t st1.idx then { st1 with paren := st1.paren + 1 } else st1
    { st2 with idx := st2.idx + 1 }

/-- Highlighter::handleCloseParenthesis (highlighter-sh.cpp lines 392-433).
initNest is the caller's initialOpenNests (passed by value in the source,
so its local reassignment there has no effect on the caller). -/
def handleCloseParenthesis (t : Text) (initNest : Int) (st : ScanSt) : ScanSt :=
  if st.dquoted then
    { st with fmts := paint st.fmts st.idx 1 Fmt.quote, idx := st.idx + 1 }
  else if ¬ isEscapedChar t st.idx then
    if st.paren - 1 < 0 then
      { st with fmts := paint st.fmts st.idx 1 Fmt.neutral,
                quotes := st.quotes.erase initNest,
                nest := st.nest - 1, paren := 0, idx := st.idx + 1 }
    else if st.inComment then
      { st with fmts := paint st.fmts st.idx 1 Fmt.comment, paren := st.paren - 1,
                idx := st.idx + 1 }
    else
      { st with fmts := paint st.fmts st.idx 1 Fmt.neutral, paren := st.paren - 1,
                idx := st.idx + 1 }
  else if st.inComment then
    { st with fmts := paint st.fmts st.idx 1 Fmt.comment, idx := st.idx + 1 }
  else
    { st with fmts := paint st.fmts st.idx 1 Fmt.neutral, idx := st.idx + 1 }

/-- Highlighter::handleCommentSign (highlighter-sh.cpp lines 435-458). -/
def handleCommentSign (t : Text) (st : ScanSt) : ScanSt :=
  if st.inComment then
    { st with fmts := paint st.fmts st.idx 1 Fmt.comment, idx := st.idx + 1 }
  else if st.dquoted then
    { st with fmts := paint st.fmts st.idx 1 Fmt.quote, idx := st.idx + 1 }
  else if st.idx = 0 ∨ (0 < st.idx ∧ (charAt t (st.idx - 1)).isWhitespace) then
    { st with inComment := true, fmts := paint st.fmts st.idx 1 Fmt.comment, idx := st.idx + 1 }
  else
    { st with fmts := paint st.fmts st.idx 1 Fmt.neutral, idx := st.idx + 1 }

/-- Highlighter::handleDefaultChar (highlighter-sh.cpp lines 460-471). -/
def handleDefaultChar (st : ScanSt) : ScanSt :=
  if st.inComment then
    { st with fmts := paint st.fmts st.idx 1 Fmt.comment, idx := st.idx + 1 }
  else if st.dquoted then
    { st with fmts := paint st.fmts st.idx 1 Fmt.quote, idx := st.idx + 1 }
  else
    { st with fmts := paint st.fmts st.idx 1 Fmt.neutral, idx := st.idx + 1 }

/-- The comment-skip at the top of the formatInsideCommand loop
(lines 205-207). -/
def skipCommentGo (t : Text) (fs : List Fmt) : Nat → Nat → Nat
  | 0, j => j
  | fuel + 1, j =>
    if j < t.length then
      if fmtAt fs (j : Int) = Fmt.comment then skipCommentGo t fs fuel (j + 1) else j
    else j

def skipCommentIdx (t : Text) (fs : List Fmt) (j : Nat) : Nat :=
  skipCommentGo t fs (t.length + 1) j

def skipCommentFmts (t : Text) (st : ScanSt) : ScanSt :=
  { st with idx := (skipCommentIdx t st.fmts st.idx.toNat : Int) }

/-- The epilogue of Highlighter::formatInsideCommand (lines 256-272): clamp
the nest count, preserve or clear this invocation's double-quote record and
possibly set the double-quote block state. -/
def ficEpilogue (minOpen initNest : Int) (isHDS : Bool) (st : ScanSt) : ScanSt :=
  let st1 := if st.nest < minOpen then { st with nest := minOpen } else st
  if st1.dquoted then
    let st2 := if ¬ isHDS ∧ st1.blockState ≠ SH_SingleQuoteState
               then { st1 with blockState := SH_DoubleQuoteState } else st1
    { st2 with quotes := insert initNest st2.quotes }
  else
    { st1 with quotes := st1.quotes.erase initNest }

/-- The scan loop of Highlighter::formatInsideCommand (lines 203-254),
including the recursive descent of handleDollarSign (lines 339-371) into a
nested command substitution. Fuel-indexed; ficLoop_some_of_fuel shows the
fuel used by the top-level wrappers always suffices. -/
def ficLoop (t : Text) (isHDS : Bool) (minOpen initNest : Int) : Nat → ScanSt → Option ScanSt
  | 0, _ => none
  | fuel + 1, st =>
    if minOpen < st.nest ∧ st.idx < textLen t then
      let st1 := skipCommentFmts t st
      if textLen t ≤ st1.idx then some st1
      else
        let c := charAt t st1.idx
        if c = sqC then
          ficLoop t isHDS minOpen initNest fuel (handleSingleQuote t isHDS st1)
        else if c = dqC then
          ficLoop t isHDS minOpen initNest fuel (handleDoubleQuote t st1)
        else if c = '$' then
          if st1.inComment then
            ficLoop t isHDS minOpen initNest fuel
              { st1 with fmts := paint st1.fmts st1.idx 1 Fmt.comment, idx := st1.idx + 1 }
          else if charAt t (st1.idx + 1) = '(' then
            let st2 := { st1 with fmts := paint st1.fmts st1.idx 2 Fmt.neutral,
                                  nest := st1.nest + 1 }
            let inner := { st2 with idx := st1.idx + 2, paren := 0, inComment := false,
                                    dquoted := decide (st2.nest ∈ st2.quotes) }
            match ficLoop t isHDS (st2.nest - 1) st2.nest fuel inner with
            | none => none
            | some stInner =>
              let st3 := ficEpilogue (st2.nest - 1) st2.nest isHDS stInner
              ficLoop t isHDS minOpen initNest fuel
                { st3 with paren := st1.paren, inComment := st1.inComment,
                           dquoted := st1.dquoted }
          else
            let f := if st1.dquoted then Fmt.quote else Fmt.neutral
            ficLoop t isHDS minOpen initNest fuel
              { st1 with fmts := paint st1.fmts st1.idx 1 f, idx := st1.idx + 1 }
        else if c = '(' then
          ficLoop t isHDS minOpen initNest fuel (handleOpenParenthesis t st1)
        else if c = ')' then
          ficLoop t isHDS minOpen initNest fuel (handleCloseParenthesis t initNest st1)
        else if c = '#' then
          ficLoop t isHDS minOpen initNest fuel (handleCommentSign t st1)
        else
          ficLoop t isHDS minOpen initNest fuel (handleDefaultChar st1)
    else some st

/-- Highlighter::formatInsideCommand (highlighter-sh.cpp lines 189-273):
the loop followed by the epilogue, entered with fresh local flags. -/
def formatInsideCommand (t : Text) (isHDS : Bool) (fuel : Nat) (minOpen : Int)
    (fs : List Fmt) (bState : Int) (startIdx nest : Int) (quotes : Finset Int) :
    Option ScanSt :=
  (ficLoop t isHDS minOpen nest fuel
    { fmts := fs, blockState := bState, idx := startIdx, nest := nest, quotes := quotes,
      paren := 0, inComment := false, dquoted := decide (nest ∈ quotes) }).map
    (ficEpilogue minOpen nest isHDS)

/-- Modelled from the spec: the urlPattern regular expression is defined in
highlighter.cpp, which is not under src/; the spec only records a Url
category overlaid inside quoted text. Modelled as an http scheme followed
by the nonblank run containing it. -/
def urlMatchLenAt (seg : Text) (j : Nat) : Nat :=
  if "http".toList <+: seg.drop j then
    ((seg.drop j).takeWhile (fun c => ¬ c.isWhitespace)).length
  else 0

def findUrlGo (seg : Text) : Nat → Nat → Option (Nat × Nat)
  | 0, _ => none
  | fuel + 1, j =>
    if j < seg.length then
      if 0 < urlMatchLenAt seg j then some (j, urlMatchLenAt seg j)
      else findUrlGo seg fuel (j + 1)
    else none

def findUrlFrom (seg : Text) (j : Nat) : Option (Nat × Nat) :=
  findUrlGo seg (seg.length + 1) j

def urlSpotsGo (seg : Text) : Nat → Nat → List (Nat × Nat)
  | 0, _ => []
  | fuel + 1, j =>
    match findUrlFrom seg j with
    | none => []
    | some (p, L) => (p, L) :: urlSpotsGo seg fuel (p + L)

def urlSpots (seg : Text) (j : Nat) : List (Nat × Nat) :=
  urlSpotsGo seg (seg.length + 1) j

/-- Highlighter::highlightUrlsWithinQuote (highlighter-sh.cpp
lines 158-167). -/
def highlightUrlsWithinQuote (t : Text) (start count : Int) (hl : HL) : HL :=
  let seg := (t.drop start.toNat).take count.toNat
  (urlSpots seg 0).foldl
    (fun h pr => { h with fmts := paint h.fmts (start + (pr.1 : Int)) (pr.2 : Int) Fmt.urlInsideQuote })
    hl

/-- The end-quote search of the SH_MultiLineQuote loop (lines 91-105). -/
def mlqEndIndex (t : Text) (wasQuoted : Bool) (fs : List Fmt) (expr : QE) (index : Int) : Int :=
  let endIndex0 := if index = 0 ∧ wasQuoted then indexOfFrom (qexprChar expr) t 0
                   else indexOfFrom (qexprChar expr) t (index + 1)
  skipLoop t fs expr false (t.length + 2) endIndex0

/-- The unterminated-quote update of the SH_MultiLineQuote loop
(lines 109-122): set a continuation block state, or record the
heredoc-resolves-ambiguity property for a line like VAR="$(cat<<EOF. -/
def mlqUnterminated (expr : QE) (initialState hereDocDelimPos : Int) (hl : HL) : HL :=
  if expr ≠ QE.dbl ∨ hereDocDelimPos = -1 then
    { hl with blockState :=
        if expr = QE.dbl then
          (if initialState = SH_DoubleQuoteState then SH_MixedDoubleQuoteState
           else if initialState = SH_SingleQuoteState then SH_MixedSingleQuoteState
           else doubleQuoteState)
        else singleQuoteState }
  else if 0 < hl.data.openNests then
    { hl with data := { hl.data with property := true } }
  else hl

/-- The next-start-index computation of the SH_MultiLineQuote loop
(lines 142-151): the next mixed-quote occurrence after the current run,
escaped or already-formatted occurrences skipped, cut off at the heredoc
delimiter. -/
def mlqNextIndex (t : Text) (fs : List Fmt) (hereDocDelimPos index quoteLength : Int) : Int :=
  let i1 := indexOfFrom (qexprChar QE.mixed) t (index + quoteLength)
  let i2 := skipLoop t fs QE.mixed true (t.length + 2) i1
  if hereDocDelimPos > -1 ∧ i2 > hereDocDelimPos then -1 else i2

/-- One iteration of the SH_MultiLineQuote loop body (lines 80-151):
classify the quote run starting at index, format it, overlay URLs, and
produce the next start index. -/
def mlqIter (t : Text) (wasQuoted : Bool) (initialState hereDocDelimPos : Int)
    (expr0 : QE) (index : Int) (hl : HL) : HL × Int :=
  let expr := if expr0 = QE.mixed then
                (if charAt t index = dqC then QE.dbl else QE.sngl)
              else expr0
  let endIndex := mlqEndIndex t wasQuoted hl.fmts expr index
  let hl1 := if endIndex = -1 then mlqUnterminated expr initialState hereDocDelimPos hl else hl
  let quoteLength := if endIndex = -1 then textLen t - index else endIndex - index + 1
  let hl2 :=
    if expr = QE.dbl then
      { hl1 with fmts := setFormatWithoutOverwrite hl1.fmts index quoteLength Fmt.quote Fmt.neutral }
    else
      { hl1 with fmts := paint hl1.fmts index quoteLength Fmt.altQuote }
  let hl3 := highlightUrlsWithinQuote t index quoteLength hl2
  (hl3, mlqNextIndex t hl3.fmts hereDocDelimPos index quoteLength)

/-- The main loop of Highlighter::SH_MultiLineQuote (highlighter-sh.cpp
lines 80-152). Fuel-indexed; mlqLoop_some_of_fuel shows the fuel used by
the top-level wrappers always suffices. -/
def mlqLoop (t : Text) (wasQuoted : Bool) (initialState hereDocDelimPos : Int) :
    Nat → QE → Int → HL → Option HL
  | 0, _, _, _ => none
  | fuel + 1, expr0, index, hl =>
    if 0 ≤ index then
      let pr := mlqIter t wasQuoted initialState hereDocDelimPos expr0 index hl
      mlqLoop t wasQuoted initialState hereDocDelimPos fuel QE.mixed pr.2 pr.1
    else some hl

/-- Highlighter::SH_MultiLineQuote (highlighter-sh.cpp lines 12-153).
prevProperty is prevData->getProperty() of the previous block. -/
def SH_MultiLineQuote (t : Text) (fuel : Nat) (prevState : Int) (prevProperty : Bool)
    (hl : HL) : Option HL :=
  let initialState := hl.blockState
  let wasDoubleQuoted0 : Bool :=
    decide (prevState = doubleQuoteState ∨ prevState = SH_MixedDoubleQuoteState ∨
            prevState = SH_MixedSingleQuoteState)
  let wasQuoted0 : Bool := wasDoubleQuoted0 || decide (prevState = singleQuoteState)
  let wasDoubleQuoted := wasDoubleQuoted0 || prevProperty
  let wasQuoted := wasQuoted0 || prevProperty
  let hereDocDelimPos :=
    if hl.data.labelInfo ≠ [] then
      hereDocDelimSkipQuoted t (t.length + 2) (hereDocDelimFrom t 0)
    else -1
  if ¬ wasQuoted then
    let i0 := indexOfFrom (qexprChar QE.mixed) t 0
    let i1 := skipLoop t hl.fmts QE.mixed true (t.length + 2) i0
    let i2 := if 0 ≤ i1 ∧ hereDocDelimPos > -1 ∧ i1 > hereDocDelimPos then -1 else i1
    mlqLoop t false initialState hereDocDelimPos fuel QE.mixed i2 hl
  else
    let expr := if wasDoubleQuoted then QE.dbl else QE.sngl
    mlqLoop t true initialState hereDocDelimPos fuel expr 0 hl

/-- Highlighter::closeOpenQuoteFromPreviousBlock (highlighter-sh.cpp
lines 554-576). -/
def closeOpenQuoteFromPreviousBlock (t : Text) (prevState : Int) (isHDS : Bool) (hl : HL) :
    HL × Int :=
  if prevState = SH_SingleQuoteState ∨ prevState = SH_MixedSingleQuoteState then
    let e := sqEndFrom t 0
    if e = -1 then
      ({ hl with fmts := paint hl.fmts 0 (textLen t) Fmt.altQuote,
                 blockState := if ¬ isHDS then SH_SingleQuoteState else hl.blockState },
       textLen t)
    else
      ({ hl with fmts := paint hl.fmts 0 (e + 1) Fmt.altQuote }, e + 1)
  else (hl, 0)

/-- The search for a new code block opener (the codeBlockStart regular
expression of SH_CmndSubstVar line 514). -/
def findDollarParenGo (t : Text) : Nat → Nat → Int
  | 0, _ => -1
  | fuel + 1, k =>
    if k < t.length then
      if charAt t (k : Int) = '$' ∧ charAt t ((k : Int) + 1) = '(' then (k : Int)
      else findDollarParenGo t fuel (k + 1)
    else -1

def findDollarParen (t : Text) (k : Nat) : Int :=
  findDollarParenGo t (t.length + 1) k

/-- The loop state of SH_CmndSubstVar lines 504-527. -/
structure CSVSt where
  fmts : List Fmt
  blockState : Int
  sIdx : Int
  nest : Int
  quotes : Finset Int
deriving DecidableEq

/-- The while loop of SH_CmndSubstVar lines 512-527. Fuel-indexed;
csvLoop_some_of_fuel shows the fuel used by the wrappers suffices. -/
def csvLoop (t : Text) (isHDS : Bool) : Nat → CSVSt → Option CSVSt
  | 0, _ => none
  | fuel + 1, s =>
    if s.sIdx < textLen t then
      if s.nest = 0 then
        let p := findDollarParen t s.sIdx.toNat
        if p = -1 ∨ fmtAt s.fmts p = Fmt.comment then some s
        else
          let s1 : CSVSt := { s with nest := s.nest + 1, fmts := paint s.fmts p 2 Fmt.neutral,
                                     sIdx := p + 2 }
          match formatInsideCommand t isHDS fuel 0 s1.fmts s1.blockState s1.sIdx s1.nest s1.quotes with
          | none => none
          | some r =>
            csvLoop t isHDS fuel
              { fmts := r.fmts, blockState := r.blockState, sIdx := r.idx, nest := r.nest,
                quotes := r.quotes }
      else
        match formatInsideCommand t isHDS fuel 0 s.fmts s.blockState s.sIdx s.nest s.quotes with
        | none => none
        | some r =>
          csvLoop t isHDS fuel
            { fmts := r.fmts, blockState := r.blockState, sIdx := r.idx, nest := r.nest,
              quotes := r.quotes }
    else some s

/-- The prologue of SH_CmndSubstVar (lines 504-509): when an unclosed
quote spills over from the previous line while code blocks are open, close
it before scanning. -/
def csvStart (t : Text) (prevState : Int) (isHDS : Bool) (nest0 : Int) (hl : HL) : HL × Int :=
  if 0 < nest0 ∧ (prevState = SH_SingleQuoteState ∨ prevState = SH_DoubleQuoteState ∨
                  prevState = SH_MixedDoubleQuoteState ∨ prevState = SH_MixedSingleQuoteState)
  then closeOpenQuoteFromPreviousBlock t prevState isHDS hl
  else (hl, 0)

/-- The epilogue of SH_CmndSubstVar (lines 529-547): store open quotes and
nests into the block data, adjust a heredoc state by the open-nest count,
and compute the rehighlight-next-block request from the old cached
auxiliary values. -/
def csvFinish (curState : Int) (isHDS : Bool) (dat : TBData) (oldOpenNests : Int)
    (oldOpenQuotes : Finset Int) (s : CSVSt) : HL × Bool :=
  let hl2 : HL := { fmts := s.fmts, blockState := s.blockState, data := dat }
  let hl3 := if s.quotes ≠ ∅ then
               { hl2 with data := { hl2.data with openQuotes := hl2.data.openQuotes ∪ s.quotes } }
             else hl2
  let hl4 :=
    if 0 < s.nest then
      { hl3 with data := { hl3.data with openNests := s.nest },
                 blockState :=
                   if isHDS then
                     (if 0 < curState then curState + 2 * (s.nest + 3)
                      else curState - 2 * (s.nest + 3))
                   else hl3.blockState }
    else hl3
  (hl4, decide (s.nest ≠ oldOpenNests ∨ s.quotes ≠ oldOpenQuotes))

/-- Highlighter::SH_CmndSubstVar (highlighter-sh.cpp lines 481-548),
specialized to progLan = sh with a present currentBlockData (the guard of
line 485 is outside the embedded shell path). oldOpenNests/oldOpenQuotes
are the line's previously cached auxiliary values; the returned Bool is the
function's return value, the request to rehighlight the next block. -/
def SH_CmndSubstVar (t : Text) (fuel : Nat) (prevState : Int) (prevData : Option TBData)
    (oldOpenNests : Int) (oldOpenQuotes : Finset Int) (hl : HL) : Option (HL × Bool) :=
  let curState := hl.blockState
  let isHDS : Bool := decide (curState < -1 ∨ endState ≤ curState)
  let nest0 := (prevData.map TBData.openNests).getD 0
  let quotes0 := (prevData.map TBData.openQuotes).getD ∅
  let pr := csvStart t prevState isHDS nest0 hl
  match csvLoop t isHDS fuel
      { fmts := pr.1.fmts, blockState := pr.1.blockState, sIdx := pr.2, nest := nest0,
        quotes := quotes0 } with
  | none => none
  | some s => some (csvFinish curState isHDS pr.1.data oldOpenNests oldOpenQuotes s)

def isHeredocState (s : Int) : Bool :=
  decide (s < -1 ∨ endState ≤ s)

/-- The carry-in of one line's classification: the line text, the previous
block's state and data, and this line's previously cached auxiliary values
(the oldOpenNests / oldOpenQuotes arguments of SH_CmndSubstVar). -/
structure LineIn where
  text : Text
  prevState : Int
  prevData : Option TBData
  oldOpenNests : Int
  oldOpenQuotes : Finset Int
deriving DecidableEq

/-- The result of one line's classification: formats, carry-out state,
carry-out block data and the rehighlight-next-block request. -/
structure LineOut where
  fmts : List Fmt
  state : Int
  data : TBData
  flag : Bool
deriving DecidableEq

/-- First position opening a heredoc: a delimiter pattern occurrence that is
not inside a completed quote pair. -/
def hereDocOpenGo (t : Text) : Nat → Nat → Int
  | 0, _ => -1
  | fuel + 1, k =>
    if k < t.length then
      if hereDocDelimMatch t (k : Int) ∧ ¬ isQuoted t (k : Int) true then (k : Int)
      else hereDocOpenGo t fuel (k + 1)
    else -1

def hereDocOpenPos (t : Text) (k : Nat) : Int :=
  hereDocOpenGo t (t.length + 1) k

def hereDocLabelAt (t : Text) (i : Int) : Text :=
  (t.drop (i.toNat + 2)).takeWhile isWordChar

/-- Modelled from the spec: heredoc opening detection is performed by
Highlighter::isHereDocument in highlighter.cpp, which is not under src/.
Per §4.1 step 3, a heredoc delimiter outside quotes records the pending
label and switches the block state to the heredoc-continuation marker. -/
def heredocDetect (t : Text) (hl : HL) : HL :=
  let p := hereDocOpenPos t 0
  if p = -1 then hl
  else { hl with data := { hl.data with labelInfo := hereDocLabelAt t p },
                 blockState := hereDocOpenState }

/-- Modelled from the spec: heredoc terminator matching is performed in
highlighter.cpp, which is not under src/.  A body line matching the label
ends the heredoc; when the heredoc was opened while a double quote looked
unterminated (the property of Scenario C), the terminator line additionally
carries the closing quote, as in the line EOF-then-quote of §8
Scenario C. -/
def hereDocTermLine (label : Text) (property : Bool) (t : Text) : Bool :=
  t == label || (property && t == label ++ [dqC])

/-- One line's classification, ignoring heredoc-body handling: fresh
formats and data, the modelled heredoc-open detection, then the embedded
SH_CmndSubstVar followed by the embedded SH_MultiLineQuote, in the order
the source forces (SH_MultiLineQuote line 119 reads the openNests value
that only SH_CmndSubstVar line 533 stores). -/
def classifyNormalO (fuel : Nat) (ln : LineIn) : Option LineOut :=
  let hl0 : HL := { fmts := List.replicate ln.text.length Fmt.dflt, blockState := 0, data := {} }
  let hl1 := heredocDetect ln.text hl0
  match SH_CmndSubstVar ln.text fuel ln.prevState ln.prevData ln.oldOpenNests ln.oldOpenQuotes hl1 with
  | none => none
  | some (hl2, flag) =>
    match SH_MultiLineQuote ln.text fuel ln.prevState
        ((ln.prevData.map TBData.property).getD false) hl2 with
    | none => none
    | some hl3 => some { fmts := hl3.fmts, state := hl3.blockState, data := hl3.data, flag := flag }

/-- Modelled from the spec: the per-line driver (Highlighter::highlightBlock
in highlighter.cpp, which is not under src/).  A line after a pending
heredoc label is opaque Neutral body text propagating the label, the
ambiguity property and the heredoc state, with no open nests of its own;
the terminator line and ordinary lines run the normal classification
(§4.1 step 3, §8 Scenario C). -/
def classifyLineO (fuel : Nat) (ln : LineIn) : Option LineOut :=
  match ln.prevData with
  | some pd =>
    if pd.labelInfo ≠ [] ∧ isHeredocState ln.prevState then
      if hereDocTermLine pd.labelInfo pd.property ln.text then classifyNormalO fuel ln
      else
        some { fmts := List.replicate ln.text.length Fmt.dflt, state := ln.prevState,
               data := { openNests := 0, openQuotes := ∅, labelInfo := pd.labelInfo,
                         property := pd.property },
               flag := decide ((0 : Int) ≠ ln.oldOpenNests ∨ (∅ : Finset Int) ≠ ln.oldOpenQuotes) }
    else classifyNormalO fuel ln
  | none => classifyNormalO fuel ln

/-- Fuel that always suffices for one line (shown by classifyLineO_fuel). -/
def lineFuel (t : Text) : Nat := 2 * t.length + 8

def classifyLine (ln : LineIn) : LineOut :=
  (classifyLineO (lineFuel ln.text) ln).getD
    { fmts := List.replicate ln.text.length Fmt.dflt, state := 0, data := {}, flag := false }

/-- Carry threading of the spec (§2 data flow): the next line's carry-in is
the previous line's carry-out state and data. -/
def nextLineIn (r : LineOut) (t : Text) (oldN : Int) (oldQ : Finset Int) : LineIn :=
  { text := t, prevState := r.state, prevData := some r.data, oldOpenNests := oldN,
    oldOpenQuotes := oldQ }

/-- FormatSpan categories of the spec (§3). -/
inductive Cat where
  | Neutral
  | Comment
  | DoubleQuoted
  | SingleQuoted
  | Url
  | UrlInsideQuote
deriving DecidableEq

/-- Rendering of a character format as a span category: the default and the
neutral format both render Neutral. -/
def toCat : Fmt → Cat
  | Fmt.dflt => Cat.Neutral
  | Fmt.neutral => Cat.Neutral
  | Fmt.comment => Cat.Comment
  | Fmt.quote => Cat.DoubleQuoted
  | Fmt.altQuote => Cat.SingleQuoted
  | Fmt.url => Cat.Url
  | Fmt.urlInsideQuote => Cat.UrlInsideQuote

/-- FormatSpan of the spec (§3): start offset, length, category. -/
structure Span where
  start : Nat
  len : Nat
  cat : Cat
deriving DecidableEq

/-- Group a category list into maximal constant runs, carrying the span
under construction. -/
def spansGo : List Cat → Nat → Option Span → List Span
  | [], _, none => []
  | [], _, some sp => [sp]
  | c :: rest, pos, none => spansGo rest (pos + 1) (some ⟨pos, 1, c⟩)
  | c :: rest, pos, some sp =>
    if c = sp.cat then spansGo rest (pos + 1) (some { sp with len := sp.len + 1 })
    else sp :: spansGo rest (pos + 1) (some ⟨pos, 1, c⟩)

/-- The format spans a line's classification emits: the maximal runs of
equal category in the per-character formats. -/
def spansOf (fs : List Fmt) : List Span :=
  spansGo (fs.map toCat) 0 none

/-- Spans chain: each starts where the previous ended, with positive
length. -/
def chainedFrom : Nat → List Span → Prop
  | _, [] => True
  | s, sp :: rest => sp.start = s ∧ 1 ≤ sp.len ∧ chainedFrom (s + sp.len) rest

/-- Spans are contiguous from offset 0, non-overlapping, and their lengths
sum to the line length. -/
def coversLine (spans : List Span) (n : Nat) : Prop :=
  chainedFrom 0 spans ∧ (spans.map Span.len).sum = n

/-! Embedding of featherpad/syntax.cpp: the language classifier. -/

def lowerStr (s : Text) : Text := s.map Char.toLower

/-- One row of the extension lookup table of syntax.cpp lines 27-105. -/
structure ExtEntry where
  ext : Text
  caseSensitive : Bool
  language : Text
deriving DecidableEq

/-- The extensionLanguageMap table (syntax.cpp lines 31-105), in source
order. -/
def extensionLanguageMap : List ExtEntry := [
  ⟨".cpp".toList, true, "cpp".toList⟩,
  ⟨".cxx".toList, true, "cpp".toList⟩,
  ⟨".h".toList, true, "cpp".toList⟩,
  ⟨".c".toList, true, "c".toList⟩,
  ⟨".sh".toList, true, "sh".toList⟩,
  ⟨".ebuild".toList, true, "sh".toList⟩,
  ⟨".eclass".toList, true, "sh".toList⟩,
  ⟨".zsh".toList, true, "sh".toList⟩,
  ⟨".rb".toList, true, "ruby".toList⟩,
  ⟨".lua".toList, true, "lua".toList⟩,
  ⟨".nelua".toList, true, "lua".toList⟩,
  ⟨".py".toList, true, "python".toList⟩,
  ⟨".pl".toList, true, "perl".toList⟩,
  ⟨".pro".toList, true, "qmake".toList⟩,
  ⟨".pri".toList, true, "qmake".toList⟩,
  ⟨".tr".toList, true, "troff".toList⟩,
  ⟨".t".toList, true, "troff".toList⟩,
  ⟨".roff".toList, true, "troff".toList⟩,
  ⟨".tex".toList, true, "LaTeX".toList⟩,
  ⟨".ltx".toList, true, "LaTeX".toList⟩,
  ⟨".latex".toList, true, "LaTeX".toList⟩,
  ⟨".lyx".toList, true, "LaTeX".toList⟩,
  ⟨".xml".toList, false, "xml".toList⟩,
  ⟨".svg".toList, false, "xml".toList⟩,
  ⟨".qrc".toList, true, "xml".toList⟩,
  ⟨".rdf".toList, true, "xml".toList⟩,
  ⟨".docbook".toList, true, "xml".toList⟩,
  ⟨".fnx".toList, true, "xml".toList⟩,
  ⟨".ts".toList, true, "xml".toList⟩,
  ⟨".menu".toList, true, "xml".toList⟩,
  ⟨".kml".toList, false, "xml".toList⟩,
  ⟨".xspf".toList, false, "xml".toList⟩,
  ⟨".asx".toList, false, "xml".toList⟩,
  ⟨".nfo".toList, true, "xml".toList⟩,
  ⟨".dae".toList, true, "xml".toList⟩,
  ⟨".css".toList, true, "css".toList⟩,
  ⟨".qss".toList, true, "css".toList⟩,
  ⟨".scss".toList, true, "scss".toList⟩,
  ⟨".p".toList, true, "pascal".toList⟩,
  ⟨".pas".toList, true, "pascal".toList⟩,
  ⟨".desktop".toList, true, "desktop".toList⟩,
  ⟨".desktop.in".toList, true, "desktop".toList⟩,
  ⟨".directory".toList, true, "desktop".toList⟩,
  ⟨".kvconfig".toList, true, "config".toList⟩,
  ⟨".service".toList, true, "config".toList⟩,
  ⟨".mount".toList, true, "config".toList⟩,
  ⟨".timer".toList, true, "config".toList⟩,
  ⟨".pls".toList, false, "config".toList⟩,
  ⟨".js".toList, true, "javascript".toList⟩,
  ⟨".hx".toList, true, "javascript".toList⟩,
  ⟨".java".toList, true, "java".toList⟩,
  ⟨".json".toList, true, "json".toList⟩,
  ⟨".qml".toList, true, "qml".toList⟩,
  ⟨".log".toList, false, "log".toList⟩,
  ⟨".php".toList, true, "php".toList⟩,
  ⟨".diff".toList, true, "diff".toList⟩,
  ⟨".patch".toList, true, "diff".toList⟩,
  ⟨".srt".toList, true, "srt".toList⟩,
  ⟨".theme".toList, true, "theme".toList⟩,
  ⟨".fountain".toList, true, "fountain".toList⟩,
  ⟨".yml".toList, true, "yaml".toList⟩,
  ⟨".yaml".toList, true, "yaml".toList⟩,
  ⟨".m3u".toList, false, "m3u".toList⟩,
  ⟨".htm".toList, false, "html".toList⟩,
  ⟨".html".toList, false, "html".toList⟩,
  ⟨".markdown".toList, true, "markdown".toList⟩,
  ⟨".md".toList, true, "markdown".toList⟩,
  ⟨".mkd".toList, true, "markdown".toList⟩,
  ⟨".rst".toList, true, "reST".toList⟩,
  ⟨".dart".toList, true, "dart".toList⟩,
  ⟨".go".toList, true, "go".toList⟩,
  ⟨".rs".toList, true, "rust".toList⟩,
  ⟨".tcl".toList, true, "tcl".toList⟩,
  ⟨".tk".toList, true, "tcl".toList⟩,
  ⟨".toml".toList, true, "toml".toList⟩]

/-- The per-entry suffix test of languageForExtension (syntax.cpp
lines 209-221): case-sensitive entries compare against the filename,
case-insensitive ones against its lowercase form. -/
def extMatches (fname : Text) (e : ExtEntry) : Bool :=
  if e.caseSensitive then e.ext.isSuffixOf fname else e.ext.isSuffixOf (lowerStr fname)

/-- languageForExtension (syntax.cpp lines 207-223): the first entry of the
table, in source order, whose suffix matches. -/
def languageForExtension (fname : Text) : Option Text :=
  (extensionLanguageMap.find? (extMatches fname)).map ExtEntry.language

/-- The specialFilenamesMap table (syntax.cpp lines 110-132). -/
def specialFilenamesMap : List (Text × Text) := [
  ("makefile".toList, "makefile".toList),
  ("makefile.am".toList, "makefile".toList),
  ("makelist".toList, "makefile".toList),
  ("pkgbuild".toList, "sh".toList),
  ("fstab".toList, "sh".toList),
  ("changelog".toList, "changelog".toList),
  ("gtkrc".toList, "gtkrc".toList),
  ("control".toList, "deb".toList),
  ("mirrorlist".toList, "config".toList),
  ("themerc".toList, "openbox".toList),
  ("bashrc".toList, "sh".toList),
  ("bash_profile".toList, "sh".toList),
  ("bash_functions".toList, "sh".toList),
  ("bash_logout".toList, "sh".toList),
  ("bash_aliases".toList, "sh".toList),
  ("xprofile".toList, "sh".toList),
  ("profile".toList, "sh".toList),
  ("mkshrc".toList, "sh".toList),
  ("zprofile".toList, "sh".toList),
  ("zlogin".toList, "sh".toList),
  ("zshrc".toList, "sh".toList),
  ("zshenv".toList, "sh".toList),
  ("cmakelists.txt".toList, "cmake".toList)]

/-- languageForSpecialFilename (syntax.cpp lines 194-200): case-insensitive
lookup of the base name. -/
def languageForSpecialFilename (baseName : Text) : Option Text :=
  (specialFilenamesMap.find? (fun pr => pr.1 == lowerStr baseName)).map Prod.snd

/-- The mimeLanguageMap table (syntax.cpp lines 137-188). -/
def mimeLanguageMap : List (Text × Text) := [
  ("text/x-c++".toList, "cpp".toList),
  ("text/x-c++src".toList, "cpp".toList),
  ("text/x-c++hdr".toList, "cpp".toList),
  ("text/x-chdr".toList, "cpp".toList),
  ("text/x-c".toList, "c".toList),
  ("text/x-csrc".toList, "c".toList),
  ("application/x-shellscript".toList, "sh".toList),
  ("text/x-shellscript".toList, "sh".toList),
  ("application/x-ruby".toList, "ruby".toList),
  ("text/x-lua".toList, "lua".toList),
  ("application/x-perl".toList, "perl".toList),
  ("text/x-makefile".toList, "makefile".toList),
  ("text/x-cmake".toList, "cmake".toList),
  ("application/vnd.nokia.qt.qmakeprofile".toList, "qmake".toList),
  ("text/troff".toList, "troff".toList),
  ("application/x-troff-man".toList, "troff".toList),
  ("text/x-tex".toList, "LaTeX".toList),
  ("application/x-lyx".toList, "LaTeX".toList),
  ("text/html".toList, "html".toList),
  ("application/xhtml+xml".toList, "html".toList),
  ("application/xml".toList, "xml".toList),
  ("application/xml-dtd".toList, "xml".toList),
  ("text/feathernotes-fnx".toList, "xml".toList),
  ("audio/x-ms-asx".toList, "xml".toList),
  ("text/x-nfo".toList, "xml".toList),
  ("text/css".toList, "css".toList),
  ("text/x-scss".toList, "scss".toList),
  ("text/x-pascal".toList, "pascal".toList),
  ("text/x-changelog".toList, "changelog".toList),
  ("application/x-desktop".toList, "desktop".toList),
  ("audio/x-scpls".toList, "config".toList),
  ("application/vnd.kde.kcfgc".toList, "config".toList),
  ("application/javascript".toList, "javascript".toList),
  ("text/javascript".toList, "javascript".toList),
  ("text/x-java".toList, "java".toList),
  ("application/json".toList, "json".toList),
  ("application/schema+json".toList, "json".toList),
  ("text/x-qml".toList, "qml".toList),
  ("text/x-log".toList, "log".toList),
  ("application/x-php".toList, "php".toList),
  ("text/x-php".toList, "php".toList),
  ("application/x-theme".toList, "theme".toList),
  ("text/x-diff".toList, "diff".toList),
  ("text/x-patch".toList, "diff".toList),
  ("text/markdown".toList, "markdown".toList),
  ("audio/x-mpegurl".toList, "m3u".toList),
  ("application/vnd.apple.mpegurl".toList, "m3u".toList),
  ("text/x-go".toList, "go".toList),
  ("text/rust".toList, "rust".toList),
  ("text/x-tcl".toList, "tcl".toList),
  ("text/tcl".toList, "tcl".toList),
  ("application/toml".toList, "toml".toList)]

def mimeLookup (m : Text) : Option Text :=
  (mimeLanguageMap.find? (fun pr => pr.1 == m)).map Prod.snd

/-- languageForMime (syntax.cpp lines 230-242): direct lookup, then the
parent mime types in order. -/
def languageForMime (mimeName : Text) (parents : List Text) : Option Text :=
  match mimeLookup mimeName with
  | some l => some l
  | none => parents.findSome? mimeLookup

/-- QFileInfo::fileName: the base name after the last slash. -/
def baseNameOf (fname : Text) : Text :=
  (fname.reverse.takeWhile (fun c => c != '/')).reverse

/-- FPwin::setProgLang (syntax.cpp lines 271-330), as the effective
language assigned to the document.  The filename is the one obtained after
symlink resolution; fileExists and the content-sniffed mime name with its
parent chain are inputs from the platform (QFileInfo / QMimeDatabase).
For a filename ending in .sub (case-insensitively) the C++ returns without
calling setProg, leaving the TextEdit's language at its default, which the
code comment on lines 282-283 records as url. -/
def setProgLang (fname : Text) (fileExists : Bool) (mimeName : Text) (parents : List Text) :
    Text :=
  if ".sub".toList.isSuffixOf (lowerStr fname) then "url".toList
  else
    match languageForSpecialFilename (baseNameOf fname) with
    | some l => l
    | none =>
      match languageForExtension fname with
      | some l => l
      | none =>
        if fileExists then
          if "text/x-python".toList.isPrefixOf mimeName then "python".toList
          else
            match languageForMime mimeName parents with
            | some l => l
            | none => "url".toList
        else "url".toList

/-! Embedding of featherpad/encoding.cpp: UTF-8 validation. -/

/-- validateUTF8 (encoding.cpp lines 9-88) over a byte list (each byte a
Nat below 256). The branch structure mirrors the C loop: ASCII fast path,
the two-, three- and four-byte forms with their continuation-byte masks,
minimal-form checks for E0/ED/F0/F4, the computed-code-point surrogate and
0x10FFFF checks, and rejection of everything else. -/
def validateUTF8 : List Nat → Bool
  | [] => true
  | c :: rest =>
    if c < 0x80 then validateUTF8 rest
    else if 0xC2 ≤ c ∧ c ≤ 0xDF then
      match rest with
      | [] => false
      | p0 :: r2 =>
        if p0 &&& 0xC0 = 0x80 then validateUTF8 r2 else false
    else if 0xE0 ≤ c ∧ c ≤ 0xEF then
      match rest with
      | p0 :: p1 :: r3 =>
        if p0 &&& 0xC0 = 0x80 ∧ p1 &&& 0xC0 = 0x80 then
          if c = 0xE0 ∧ p0 < 0xA0 then false
          else if c = 0xED ∧ 0x9F < p0 then false
          else
            let code := ((c &&& 0x0F) <<< 12) ||| ((p0 &&& 0x3F) <<< 6) ||| (p1 &&& 0x3F)
            if 0xD800 ≤ code ∧ code ≤ 0xDFFF then false
            else validateUTF8 r3
        else false
      | _ => false
    else if 0xF0 ≤ c ∧ c ≤ 0xF4 then
      match rest with
      | p0 :: p1 :: p2 :: r4 =>
        if p0 &&& 0xC0 = 0x80 ∧ p1 &&& 0xC0 = 0x80 ∧ p2 &&& 0xC0 = 0x80 then
          if c = 0xF0 ∧ p0 < 0x90 then false
          else if c = 0xF4 ∧ 0x8F < p0 then false
          else
            let code := ((c &&& 0x07) <<< 18) ||| ((p0 &&& 0x3F) <<< 12) |||
                        ((p1 &&& 0x3F) <<< 6) ||| (p2 &&& 0x3F)
            if 0x10FFFF < code then false
            else validateUTF8 r4
        else false
      | _ => false
    else false

/-- detectCharset (encoding.cpp lines 91-97). -/
def detectCharset (byteArray : List Nat) : String :=
  if validateUTF8 byteArray then "UTF-8" else "ISO-8859-1"

/-- Well-formed UTF-8 stated from the Unicode table of byte ranges (the
specification side of the claim): ASCII; C2-DF with one continuation;
E0 with A0-BF then a continuation (excluding overlong forms); E1-EC, EE-EF
with two continuations; ED with 80-9F then a continuation (excluding
surrogates D800-DFFF); F0 with 90-BF then two continuations (excluding
overlong forms); F1-F3 with three continuations; F4 with 80-8F then two
continuations (excluding code points above 10FFFF).  Continuations are
80-BF. -/
def utf8WellFormed : List Nat → Bool
  | [] => true
  | c :: rest =>
    if c ≤ 0x7F then utf8WellFormed rest
    else if 0xC2 ≤ c ∧ c ≤ 0xDF then
      match rest with
      | p0 :: r2 =>
        if 0x80 ≤ p0 ∧ p0 ≤ 0xBF then utf8WellFormed r2 else false
      | _ => false
    else if 0xE0 ≤ c ∧ c ≤ 0xEF then
      match rest with
      | p0 :: p1 :: r3 =>
        if (if c = 0xE0 then 0xA0 ≤ p0 ∧ p0 ≤ 0xBF
            else if c = 0xED then 0x80 ≤ p0 ∧ p0 ≤ 0x9F
            else 0x80 ≤ p0 ∧ p0 ≤ 0xBF) ∧
           (0x80 ≤ p1 ∧ p1 ≤ 0xBF) then utf8WellFormed r3
        else false
      | _ => false
    else if 0xF0 ≤ c ∧ c ≤ 0xF4 then
      match rest with
      | p0 :: p1 :: p2 :: r4 =>
        if (if c = 0xF0 then 0x90 ≤ p0 ∧ p0 ≤ 0xBF
            else if c = 0xF4 then 0x80 ≤ p0 ∧ p0 ≤ 0x8F
            else 0x80 ≤ p0 ∧ p0 ≤ 0xBF) ∧
           (0x80 ≤ p1 ∧ p1 ≤ 0xBF) ∧ (0x80 ≤ p2 ∧ p2 ≤ 0xBF) then utf8WellFormed r4
        else false
      | _ => false
    else false

theorem paintAux_length (f : Fmt) (start stop : Int) :
    ∀ (i : Int) (fs : List Fmt), (paintAux f start stop i fs).length = fs.length := by
  intro i fs
  induction fs generalizing i with
  | nil => rfl
  | cons g rest ih => simp [paintAux, ih]

theorem paint_length (fs : List Fmt) (start count : Int) (f : Fmt) :
    (paint fs start count f).length = fs.length :=
  paintAux_length f start (start + count) 0 fs

theorem paintKeepAux_length (f keep : Fmt) (start stop : Int) :
    ∀ (i : Int) (fs : List Fmt), (paintKeepAux f keep start stop i fs).length = fs.length := by
  intro i fs
  induction fs generalizing i with
  | nil => rfl
  | cons g rest ih => simp [paintKeepAux, ih]

theorem setFormatWithoutOverwrite_length (fs : List Fmt) (start count : Int) (f keep : Fmt) :
    (setFormatWithoutOverwrite fs start count f keep).length = fs.length :=
  paintKeepAux_length f keep start (start + count) 0 fs

theorem handleSingleQuote_len (t : Text) (isHDS : Bool) (st : ScanSt) :
    (handleSingleQuote t isHDS st).fmts.length = st.fmts.length := by
  unfold handleSingleQuote
  dsimp only
  split_ifs <;> simp [paint_length]

theorem handleDoubleQuote_len (t : Text) (st : ScanSt) :
    (handleDoubleQuote t st).fmts.length = st.fmts.length := by
  unfold handleDoubleQuote
  split_ifs <;> simp [paint_length]

theorem handleOpenParenthesis_len (t : Text) (st : ScanSt) :
    (handleOpenParenthesis t st).fmts.length = st.fmts.length := by
  unfold handleOpenParenthesis
  dsimp only
  split_ifs <;> simp [paint_length]

theorem handleCloseParenthesis_len (t : Text) (initNest : Int) (st : ScanSt) :
    (handleCloseParenthesis t initNest st).fmts.length = st.fmts.length := by
  unfold handleCloseParenthesis
  split_ifs <;> simp [paint_length]

theorem handleCommentSign_len (t : Text) (st : ScanSt) :
    (handleCommentSign t st).fmts.length = st.fmts.length := by
  unfold handleCommentSign
  split_ifs <;> simp [paint_length]

theorem handleDefaultChar_len (st : ScanSt) :
    (handleDefaultChar st).fmts.length = st.fmts.length := by
  unfold handleDefaultChar
  split_ifs <;> simp [paint_length]

theorem skipCommentFmts_fmts (t : Text) (st : ScanSt) :
    (skipCommentFmts t st).fmts = st.fmts := rfl

theorem ficEpilogue_fmts (a b : Int) (c : Bool) (st : ScanSt) :
    (ficEpilogue a b c st).fmts = st.fmts := by
  unfold ficEpilogue
  dsimp only
  split_ifs <;> rfl

theorem ficLoop_fmts_len (t : Text) (isHDS : Bool) :
    ∀ fuel minOpen initNest st st',
      ficLoop t isHDS minOpen initNest fuel st = some st' →
      st'.fmts.length = st.fmts.length := by
  intro fuel
  induction fuel with
  | zero => intro _ _ _ _ h; exact absurd h (by simp [ficLoop])
  | succ n ih =>
    intro minOpen initNest st st' h
    rw [ficLoop] at h
    dsimp only at h
    split at h
    · split at h
      · cases h; rfl
      · split at h
        · have := ih _ _ _ _ h
          simp [handleSingleQuote_len, skipCommentFmts_fmts] at this
          exact this
        · split at h
          · have := ih _ _ _ _ h
            simp [handleDoubleQuote_len, skipCommentFmts_fmts] at this
            exact this
          · split at h
            · split at h
              · have := ih _ _ _ _ h
                simp [paint_length, skipCommentFmts_fmts] at this
                exact this
              · split at h
                · split at h
                  · exact absurd h (by simp)
                  · rename_i stInner hInner
                    have h2 := ih _ _ _ _ h
                    have h3 := ih _ _ _ _ hInner
                    simp [ficEpilogue_fmts, paint_length, skipCommentFmts_fmts] at h2 h3
                    omega
                · have := ih _ _ _ _ h
                  simp [paint_length, skipCommentFmts_fmts] at this
                  exact this
            · split at h
              · have := ih _ _ _ _ h
                simp [handleOpenParenthesis_len, skipCommentFmts_fmts] at this
                exact this
              · split at h
                · have := ih _ _ _ _ h
                  simp [handleCloseParenthesis_len, skipCommentFmts_fmts] at this
                  exact this
                · split at h
                  · have := ih _ _ _ _ h
                    simp [handleCommentSign_len, skipCommentFmts_fmts] at this
                    exact this
                  · have := ih _ _ _ _ h
                    simp [handleDefaultChar_len, skipCommentFmts_fmts] at this
                    exact this
    · cases h; rfl

theorem highlightUrlsWithinQuote_len (t : Text) (start count : Int) (hl : HL) :
    (highlightUrlsWithinQuote t start count hl).fmts.length = hl.fmts.length := by
  unfold highlightUrlsWithinQuote
  dsimp only
  generalize urlSpots ((t.drop start.toNat).take count.toNat) 0 = L
  induction L generalizing hl with
  | nil => rfl
  | cons p rest ih => simp [List.foldl_cons, ih, paint_length]

theorem mlqUnterminated_fmts (expr : QE) (is0 hdp : Int) (hl : HL) :
    (mlqUnterminated expr is0 hdp hl).fmts = hl.fmts := by
  unfold mlqUnterminated
  split_ifs <;> rfl

theorem mlqIter_fmts_len (t : Text) (wq : Bool) (is0 hdp : Int) (expr0 : QE) (index : Int) (hl : HL) :
    (mlqIter t wq is0 hdp expr0 index hl).1.fmts.length = hl.fmts.length := by
  unfold mlqIter
  dsimp only
  split_ifs <;>
    simp [highlightUrlsWithinQuote_len, setFormatWithoutOverwrite_length, paint_length,
          mlqUnterminated_fmts]

theorem mlqLoop_fmts_len (t : Text) (wq : Bool) (is0 hdp : Int) :
    ∀ fuel expr index hl hl',
      mlqLoop t wq is0 hdp fuel expr index hl = some hl' →
      hl'.fmts.length = hl.fmts.length := by
  intro fuel
  induction fuel with
  | zero => intro _ _ _ _ h; exact absurd h (by simp [mlqLoop])
  | succ n ih =>
    intro expr index hl hl' h
    rw [mlqLoop] at h
    dsimp only at h
    split at h
    · have := ih _ _ _ _ h
      rw [this, mlqIter_fmts_len]
    · cases h; rfl

theorem formatInsideCommand_fmts_len (t : Text) (isHDS : Bool) (fuel : Nat) (minOpen : Int)
    (fs : List Fmt) (b : Int) (i nst : Int) (q : Finset Int) (r : ScanSt)
    (h : formatInsideCommand t isHDS fuel minOpen fs b i nst q = some r) :
    r.fmts.length = fs.length := by
  unfold formatInsideCommand at h
  rcases Option.map_eq_some'.mp h with ⟨st1, h1, rfl⟩
  rw [ficEpilogue_fmts]
  exact ficLoop_fmts_len t isHDS _ _ _ _ _ h1

theorem closeOpenQuoteFromPreviousBlock_len (t : Text) (ps : Int) (isHDS : Bool) (hl : HL) :
    (closeOpenQuoteFromPreviousBlock t ps isHDS hl).1.fmts.length = hl.fmts.length := by
  unfold closeOpenQuoteFromPreviousBlock
  dsimp only
  split_ifs <;> simp [paint_length]

theorem csvLoop_fmts_len (t : Text) (isHDS : Bool) :
    ∀ fuel s s', csvLoop t isHDS fuel s = some s' → s'.fmts.length = s.fmts.length := by
  intro fuel
  induction fuel with
  | zero => intro _ _ h; exact absurd h (by simp [csvLoop])
  | succ n ih =>
    intro s s' h
    rw [csvLoop] at h
    dsimp only at h
    split at h
    · split at h
      · split at h
        · cases h; rfl
        · split at h
          · exact absurd h (by simp)
          · rename_i r hr
            have h2 := ih _ _ h
            have h3 := formatInsideCommand_fmts_len _ _ _ _ _ _ _ _ _ _ hr
            simp only [paint_length] at h2 h3 ⊢
            omega
      · split at h
        · exact absurd h (by simp)
        · rename_i r hr
          have h2 := ih _ _ h
          have h3 := formatInsideCommand_fmts_len _ _ _ _ _ _ _ _ _ _ hr
          simp only [] at h2 h3 ⊢
          omega
    · cases h; rfl

theorem csvStart_fst_len (t : Text) (ps : Int) (isHDS : Bool) (n0 : Int) (hl : HL) :
    (csvStart t ps isHDS n0 hl).1.fmts.length = hl.fmts.length := by
  unfold csvStart
  split_ifs
  · exact closeOpenQuoteFromPreviousBlock_len t ps isHDS hl
  · rfl

theorem csvFinish_fst_fmts (cs : Int) (isHDS : Bool) (dat : TBData) (oN : Int)
    (oQ : Finset Int) (s : CSVSt) :
    (csvFinish cs isHDS dat oN oQ s).1.fmts = s.fmts := by
  unfold csvFinish
  dsimp only
  split_ifs <;> rfl

theorem SH_CmndSubstVar_fmts_len (t : Text) (fuel : Nat) (ps : Int) (pd : Option TBData)
    (oN : Int) (oQ : Finset Int) (hl : HL) (r : HL × Bool)
    (h : SH_CmndSubstVar t fuel ps pd oN oQ hl = some r) :
    r.1.fmts.length = hl.fmts.length := by
  unfold SH_CmndSubstVar at h
  dsimp only at h
  split at h
  · exact absurd h (by simp)
  · rename_i s hs
    cases h
    have h1 := csvLoop_fmts_len t _ _ _ _ hs
    rw [csvFinish_fst_fmts]
    simp only [] at h1
    rw [h1, csvStart_fst_len]

theorem SH_MultiLineQuote_fmts_len (t : Text) (fuel : Nat) (ps : Int) (pp : Bool) (hl hl2 : HL)
    (h : SH_MultiLineQuote t fuel ps pp hl = some hl2) :
    hl2.fmts.length = hl.fmts.length := by
  unfold SH_MultiLineQuote at h
  dsimp only at h
  split at h
  · exact mlqLoop_fmts_len t _ _ _ _ _ _ _ _ h
  · exact mlqLoop_fmts_len t _ _ _ _ _ _ _ _ h

theorem heredocDetect_fmts (t : Text) (hl : HL) :
    (heredocDetect t hl).fmts = hl.fmts := by
  unfold heredocDetect
  dsimp only
  split_ifs <;> rfl

theorem classifyNormalO_fmts_len (fuel : Nat) (ln : LineIn) (r : LineOut)
    (h : classifyNormalO fuel ln = some r) :
    r.fmts.length = ln.text.length := by
  unfold classifyNormalO at h
  dsimp only at h
  split at h
  · exact absurd h (by simp)
  · rename_i p hp
    split at h
    · exact absurd h (by simp)
    · rename_i hl3 h3
      cases h
      have a1 := SH_CmndSubstVar_fmts_len _ _ _ _ _ _ _ _ hp
      have a2 := SH_MultiLineQuote_fmts_len _ _ _ _ _ _ h3
      simp only [heredocDetect_fmts] at a1
      simp only [List.length_replicate] at a1
      dsimp only
      omega

theorem classifyLineO_fmts_len (fuel : Nat) (ln : LineIn) (r : LineOut)
    (h : classifyLineO fuel ln = some r) :
    r.fmts.length = ln.text.length := by
  unfold classifyLineO at h
  split at h
  · split at h
    · split at h
      · exact classifyNormalO_fmts_len _ _ _ h
      · cases h; simp
    · exact classifyNormalO_fmts_len _ _ _ h
  · exact classifyNormalO_fmts_len _ _ _ h

theorem classifyLine_fmts_len (ln : LineIn) :
    (classifyLine ln).fmts.length = ln.text.length := by
  unfold classifyLine
  match h : classifyLineO (lineFuel ln.text) ln with
  | none => simp [Option.getD]
  | some r => simpa using classifyLineO_fmts_len _ _ _ h

theorem spansGo_chain :
    ∀ (cs : List Cat) (s0 l0 : Nat) (c0 : Cat), 1 ≤ l0 →
      chainedFrom s0 (spansGo cs (s0 + l0) (some ⟨s0, l0, c0⟩)) := by
  intro cs
  induction cs with
  | nil =>
    intro s0 l0 c0 hl
    exact ⟨rfl, hl, trivial⟩
  | cons c rest ih =>
    intro s0 l0 c0 hl
    rw [spansGo]
    split
    · have := ih s0 (l0 + 1) c0 (by omega)
      simpa [Nat.add_assoc] using this
    · refine ⟨rfl, hl, ?_⟩
      have := ih (s0 + l0) 1 c (by omega)
      simpa [Nat.add_assoc] using this

theorem spansGo_sum :
    ∀ (cs : List Cat) (s0 l0 : Nat) (c0 : Cat),
      ((spansGo cs (s0 + l0) (some ⟨s0, l0, c0⟩)).map Span.len).sum = l0 + cs.length := by
  intro cs
  induction cs with
  | nil => intro s0 l0 c0; simp [spansGo]
  | cons c rest ih =>
    intro s0 l0 c0
    rw [spansGo]
    split
    · have := ih s0 (l0 + 1) c0
      rw [show s0 + (l0 + 1) = s0 + l0 + 1 by omega] at this
      simp only [List.length_cons]
      rw [this]
      omega
    · have := ih (s0 + l0) 1 c
      rw [show s0 + l0 + 1 = (s0 + l0) + 1 by omega] at this
      simp [this]
      omega

theorem spansOf_covers (fs : List Fmt) : coversLine (spansOf fs) fs.length := by
  unfold spansOf coversLine
  match fs with
  | [] => exact ⟨trivial, rfl⟩
  | f :: rest =>
    rw [List.map_cons, spansGo]
    constructor
    · have := spansGo_chain (rest.map toCat) 0 1 (toCat f) (by omega)
      simpa using this
    · have := spansGo_sum (rest.map toCat) 0 1 (toCat f)
      simp only [Nat.zero_add] at this
      simp [this]
      omega

theorem ficEpilogue_nest_ge (minOpen initNest : Int) (isHDS : Bool) (st : ScanSt) :
    minOpen ≤ (ficEpilogue minOpen initNest isHDS st).nest := by
  unfold ficEpilogue
  dsimp only
  split_ifs <;> simp <;> omega

theorem formatInsideCommand_nest_ge (t : Text) (isHDS : Bool) (fuel : Nat) (minOpen : Int)
    (fs : List Fmt) (b : Int) (i nst : Int) (q : Finset Int) (r : ScanSt)
    (h : formatInsideCommand t isHDS fuel minOpen fs b i nst q = some r) :
    minOpen ≤ r.nest := by
  unfold formatInsideCommand at h
  rcases Option.map_eq_some'.mp h with ⟨st1, h1, rfl⟩
  exact ficEpilogue_nest_ge _ _ _ _

theorem csvLoop_nest_ge (t : Text) (isHDS : Bool) :
    ∀ fuel s s', 0 ≤ s.nest → csvLoop t isHDS fuel s = some s' → 0 ≤ s'.nest := by
  intro fuel
  induction fuel with
  | zero => intro _ _ _ h; exact absurd h (by simp [csvLoop])
  | succ n ih =>
    intro s s' hs h
    rw [csvLoop] at h
    dsimp only at h
    split at h
    · split at h
      · split at h
        · cases h; exact hs
        · split at h
          · exact absurd h (by simp)
          · rename_i r hr
            exact ih _ _ (formatInsideCommand_nest_ge _ _ _ _ _ _ _ _ _ _ hr) h
      · split at h
        · exact absurd h (by simp)
        · rename_i r hr
          exact ih _ _ (formatInsideCommand_nest_ge _ _ _ _ _ _ _ _ _ _ hr) h
    · cases h; exact hs

theorem csvStart_data (t : Text) (ps : Int) (isHDS : Bool) (n0 : Int) (hl : HL) :
    (csvStart t ps isHDS n0 hl).1.data = hl.data := by
  unfold csvStart closeOpenQuoteFromPreviousBlock
  dsimp only
  split_ifs <;> rfl

theorem csvFinish_openNests (cs : Int) (isHDS : Bool) (dat : TBData) (oN : Int)
    (oQ : Finset Int) (s : CSVSt) :
    (csvFinish cs isHDS dat oN oQ s).1.data.openNests = if 0 < s.nest then s.nest else dat.openNests := by
  unfold csvFinish
  dsimp only
  split_ifs <;> rfl

theorem csvFinish_openQuotes (cs : Int) (isHDS : Bool) (dat : TBData) (oN : Int)
    (oQ : Finset Int) (s : CSVSt) :
    (csvFinish cs isHDS dat oN oQ s).1.data.openQuotes =
      if s.quotes ≠ ∅ then dat.openQuotes ∪ s.quotes else dat.openQuotes := by
  unfold csvFinish
  dsimp only
  split_ifs <;> rfl

theorem csvFinish_flag (cs : Int) (isHDS : Bool) (dat : TBData) (oN : Int)
    (oQ : Finset Int) (s : CSVSt) :
    (csvFinish cs isHDS dat oN oQ s).2 = decide (s.nest ≠ oN ∨ s.quotes ≠ oQ) := rfl

theorem SH_CmndSubstVar_nest_ge (t : Text) (fuel : Nat) (ps : Int) (pd : Option TBData)
    (oN : Int) (oQ : Finset Int) (hl : HL) (r : HL × Bool)
    (hd : 0 ≤ hl.data.openNests)
    (hpd : 0 ≤ (pd.map TBData.openNests).getD 0)
    (h : SH_CmndSubstVar t fuel ps pd oN oQ hl = some r) :
    0 ≤ r.1.data.openNests := by
  unfold SH_CmndSubstVar at h
  dsimp only at h
  split at h
  · exact absurd h (by simp)
  · rename_i s hs
    cases h
    have h1 := csvLoop_nest_ge t _ _ _ _ hpd hs
    rw [csvFinish_openNests, csvStart_data]
    split_ifs with hn
    · omega
    · exact hd

theorem highlightUrlsWithinQuote_data (t : Text) (start count : Int) (hl : HL) :
    (highlightUrlsWithinQuote t start count hl).data = hl.data := by
  unfold highlightUrlsWithinQuote
  dsimp only
  generalize urlSpots ((t.drop start.toNat).take count.toNat) 0 = L
  induction L generalizing hl with
  | nil => rfl
  | cons p rest ih => simp [List.foldl_cons, ih]

theorem mlqUnterminated_nests_quotes (expr : QE) (is0 hdp : Int) (hl : HL) :
    (mlqUnterminated expr is0 hdp hl).data.openNests = hl.data.openNests ∧
    (mlqUnterminated expr is0 hdp hl).data.openQuotes = hl.data.openQuotes := by
  unfold mlqUnterminated
  split_ifs <;> exact ⟨rfl, rfl⟩

theorem mlqIter_nests_quotes (t : Text) (wq : Bool) (is0 hdp : Int) (expr0 : QE)
    (index : Int) (hl : HL) :
    (mlqIter t wq is0 hdp expr0 index hl).1.data.openNests = hl.data.openNests ∧
    (mlqIter t wq is0 hdp expr0 index hl).1.data.openQuotes = hl.data.openQuotes := by
  unfold mlqIter
  dsimp only
  rw [highlightUrlsWithinQuote_data]
  split_ifs <;>
    simp [mlqUnterminated_nests_quotes]

theorem mlqLoop_nests_quotes (t : Text) (wq : Bool) (is0 hdp : Int) :
    ∀ fuel expr index hl hl',
      mlqLoop t wq is0 hdp fuel expr index hl = some hl' →
      hl'.data.openNests = hl.data.openNests ∧ hl'.data.openQuotes = hl.data.openQuotes := by
  intro fuel
  induction fuel with
  | zero => intro _ _ _ _ h; exact absurd h (by simp [mlqLoop])
  | succ n ih =>
    intro expr index hl hl' h
    rw [mlqLoop] at h
    dsimp only at h
    split at h
    · have h1 := ih _ _ _ _ h
      have h2 := mlqIter_nests_quotes t wq is0 hdp expr index hl
      exact ⟨h1.1.trans h2.1, h1.2.trans h2.2⟩
    · cases h; exact ⟨rfl, rfl⟩

theorem SH_MultiLineQuote_nests_quotes (t : Text) (fuel : Nat) (ps : Int) (pp : Bool)
    (hl hl2 : HL) (h : SH_MultiLineQuote t fuel ps pp hl = some hl2) :
    hl2.data.openNests = hl.data.openNests ∧ hl2.data.openQuotes = hl.data.openQuotes := by
  unfold SH_MultiLineQuote at h
  dsimp only at h
  split at h
  · exact mlqLoop_nests_quotes t _ _ _ _ _ _ _ _ h
  · exact mlqLoop_nests_quotes t _ _ _ _ _ _ _ _ h

theorem heredocDetect_nests (t : Text) (hl : HL) :
    (heredocDetect t hl).data.openNests = hl.data.openNests := by
  unfold heredocDetect
  dsimp only
  split_ifs <;> rfl

theorem classifyNormalO_nest_ge (fuel : Nat) (ln : LineIn) (r : LineOut)
    (hpd : 0 ≤ (ln.prevData.map TBData.openNests).getD 0)
    (h : classifyNormalO fuel ln = some r) :
    0 ≤ r.data.openNests := by
  unfold classifyNormalO at h
  dsimp only at h
  split at h
  · exact absurd h (by simp)
  · rename_i hl2 flag hp
    split at h
    · exact absurd h (by simp)
    · rename_i hl3 h3
      cases h
      have a1 := SH_CmndSubstVar_nest_ge _ _ _ _ _ _ _ _
        (by simp [heredocDetect_nests]) hpd hp
      have a2 := (SH_MultiLineQuote_nests_quotes _ _ _ _ _ _ h3).1
      dsimp only at a1 ⊢
      omega

theorem classifyLineO_nest_ge (fuel : Nat) (ln : LineIn) (r : LineOut)
    (hpd : 0 ≤ (ln.prevData.map TBData.openNests).getD 0)
    (h : classifyLineO fuel ln = some r) :
    0 ≤ r.data.openNests := by
  unfold classifyLineO at h
  split at h
  · split at h
    · split at h
      · exact classifyNormalO_nest_ge _ _ _ hpd h
      · cases h; simp
    · exact classifyNormalO_nest_ge _ _ _ hpd h
  · exact classifyNormalO_nest_ge _ _ _ hpd h

/-- C2: for every classified line, the format spans emitted by one
classification pass are contiguous, non-overlapping, and their lengths sum
to the length of the line, so every character position is covered by
exactly one span. -/
theorem spans_cover_line (ln : LineIn) :
    coversLine (spansOf (classifyLine ln).fmts) ln.text.length := by
  have h := classifyLine_fmts_len ln
  rw [← h]
  exact spansOf_covers _

/-- C3: for every input line, carry-in state and carry-in auxiliary data,
the openNestCount carried out of the scan never drops below the enclosing
minimum nest level passed into formatInsideCommand, and the openNestCount
carried out of a whole line's classification is never negative, stray
close parentheses included. -/
theorem openNests_never_negative :
    (∀ (t : Text) (isHDS : Bool) (fuel : Nat) (minOpen : Int) (fs : List Fmt) (b i nst : Int)
       (q : Finset Int) (r : ScanSt),
       formatInsideCommand t isHDS fuel minOpen fs b i nst q = some r → minOpen ≤ r.nest) ∧
    (∀ (fuel : Nat) (ln : LineIn) (r : LineOut),
       0 ≤ (ln.prevData.map TBData.openNests).getD 0 →
       classifyLineO fuel ln = some r → 0 ≤ r.data.openNests) :=
  ⟨fun t isHDS fuel minOpen fs b i nst q r h =>
     formatInsideCommand_nest_ge t isHDS fuel minOpen fs b i nst q r h,
   fun fuel ln r hpd h => classifyLineO_nest_ge fuel ln r hpd h⟩

/-- Witness for C3 at a line of stray closers and a concrete scan. -/
theorem openNests_never_negative_witness :
    (0 : Int) ≤ (classifyLine { text := ")))))$(".toList, prevState := -1, prevData := none,
                                oldOpenNests := 0, oldOpenQuotes := ∅ }).data.openNests ∧
    (0 : Int) ≤ ((formatInsideCommand ")))x".toList false 20 0
                    (List.replicate 4 Fmt.dflt) 0 0 1 ∅).getD
                  ⟨[], 0, 0, 0, ∅, 0, false, false⟩).nest := by
  constructor
  · exact openNests_never_negative.2 (lineFuel ")))))$(".toList)
      { text := ")))))$(".toList, prevState := -1, prevData := none,
        oldOpenNests := 0, oldOpenQuotes := ∅ }
      (classifyLine { text := ")))))$(".toList, prevState := -1, prevData := none,
                      oldOpenNests := 0, oldOpenQuotes := ∅ })
      (by decide) (by decide)
  · exact openNests_never_negative.1 ")))x".toList false 20 0
      (List.replicate 4 Fmt.dflt) 0 0 1 ∅
      ((formatInsideCommand ")))x".toList false 20 0 (List.replicate 4 Fmt.dflt) 0 0 1 ∅).getD
        ⟨[], 0, 0, 0, ∅, 0, false, false⟩)
      (by decide)

/-- C1 counterexample: on the single line VAR="abc with Normal carry-in
and cached values (Normal, 0, empty set), the carry-out state changes to
InsideDoubleQuote while openNestCount and openQuoteSet are unchanged, yet
the rehighlight-next-block flag is false: the flag is not true iff the
triple (carryOutState, openNestCount, openQuoteSet) changed. -/
theorem downstream_flag_counterexample :
    (let ln : LineIn := { text := "VAR=".toList ++ dqC :: "abc".toList, prevState := -1,
                          prevData := none, oldOpenNests := 0, oldOpenQuotes := ∅ }
     let r := classifyLine ln
     r.flag = false ∧ r.state = doubleQuoteState ∧ r.data.openNests = 0 ∧
     r.data.openQuotes = ∅ ∧
     ¬ ((r.flag = true) ↔
        (r.state, r.data.openNests, r.data.openQuotes) ≠ ((0 : Int), ln.oldOpenNests, ln.oldOpenQuotes))) := by
  decide

/-- C1 (amended): the flag returned by SH_CmndSubstVar is true iff the
newly computed pair (openNestCount, openQuoteSet) differs from the line's
previously cached pair; the carry-out state takes no part in the
comparison. -/
theorem downstream_flag_iff (t : Text) (fuel : Nat) (ps : Int) (pd : Option TBData)
    (oN : Int) (oQ : Finset Int) (hl : HL) (r : HL × Bool)
    (hn : hl.data.openNests = 0) (hq : hl.data.openQuotes = ∅)
    (hpd : 0 ≤ (pd.map TBData.openNests).getD 0)
    (h : SH_CmndSubstVar t fuel ps pd oN oQ hl = some r) :
    r.2 = decide (r.1.data.openNests ≠ oN ∨ r.1.data.openQuotes ≠ oQ) := by
  unfold SH_CmndSubstVar at h
  dsimp only at h
  split at h
  · exact absurd h (by simp)
  · rename_i s hs
    cases h
    have hnest := csvLoop_nest_ge t _ _ _ _ hpd hs
    rw [csvFinish_flag, csvFinish_openNests, csvFinish_openQuotes, csvStart_data, hn, hq]
    have e1 : (if 0 < s.nest then s.nest else (0 : Int)) = s.nest := by
      split_ifs with h1
      · rfl
      · omega
    have e2 : (if s.quotes ≠ ∅ then (∅ : Finset Int) ∪ s.quotes else (∅ : Finset Int)) = s.quotes := by
      split_ifs with h2
      · exact Finset.empty_union s.quotes
      · exact (not_ne_iff.mp h2).symm
    rw [e1, e2]

/-- Witness for the amended C1 at a concrete command-substitution line. -/
theorem downstream_flag_iff_witness :
    (let hl0 : HL := { fmts := List.replicate 9 Fmt.dflt, blockState := 0, data := {} }
     let r := (SH_CmndSubstVar "echo $(ls".toList 26 0 none 0 ∅ hl0).getD (hl0, false)
     r.2 = decide (r.1.data.openNests ≠ (0 : Int) ∨ r.1.data.openQuotes ≠ (∅ : Finset Int))) := by
  exact downstream_flag_iff "echo $(ls".toList 26 0 none 0 ∅
    { fmts := List.replicate 9 Fmt.dflt, blockState := 0, data := {} }
    ((SH_CmndSubstVar "echo $(ls".toList 26 0 none 0 ∅
        { fmts := List.replicate 9 Fmt.dflt, blockState := 0, data := {} }).getD
      ({ fmts := List.replicate 9 Fmt.dflt, blockState := 0, data := {} }, false))
    rfl rfl (by decide) (by decide)

/-- C5: the single line VAR="abc classified with Normal carry-in and empty
auxiliary data yields a Neutral span over VAR= followed by a DoubleQuoted
span over "abc, the carry-out state InsideDoubleQuote, and the next line's
carry-in equals that carry-out. -/
theorem scenarioB_unterminated_quote :
    (let ln : LineIn := { text := "VAR=".toList ++ dqC :: "abc".toList, prevState := -1,
                          prevData := none, oldOpenNests := 0, oldOpenQuotes := ∅ }
     let r := classifyLine ln
     spansOf r.fmts = [⟨0, 4, Cat.Neutral⟩, ⟨4, 4, Cat.DoubleQuoted⟩] ∧
     r.state = doubleQuoteState ∧
     (nextLineIn r [] 0 ∅).prevState = doubleQuoteState) := by
  decide

/-- C4: for the three lines of Scenario C, line 1 records the
heredoc-resolves-ambiguity marker instead of propagating an open
double-quote carry-out state and ends with nest depth 1 and a pending
heredoc label, line 2 is Neutral heredoc body, and line 3 closes both the
heredoc and the quote, with final carry-out Normal and nest depth 0. -/
theorem scenarioC_heredoc_ambiguity :
    (let ln1 : LineIn := { text := "VAR=".toList ++ dqC :: "$(cat<<EOF".toList, prevState := -1,
                           prevData := none, oldOpenNests := 0, oldOpenQuotes := ∅ }
     let r1 := classifyLine ln1
     let r2 := classifyLine (nextLineIn r1 "some text".toList 0 ∅)
     let r3 := classifyLine (nextLineIn r2 ("EOF".toList ++ [dqC]) 0 ∅)
     r1.data.property = true ∧
     r1.data.openNests = 1 ∧
     r1.data.labelInfo = "EOF".toList ∧
     isHeredocState r1.state = true ∧
     r1.state ≠ doubleQuoteState ∧ r1.state ≠ SH_MixedDoubleQuoteState ∧
     r1.state ≠ SH_MixedSingleQuoteState ∧ r1.state ≠ singleQuoteState ∧
     (spansOf r2.fmts).all (fun sp => sp.cat = Cat.Neutral) = true ∧
     spansOf r3.fmts = [⟨0, 4, Cat.DoubleQuoted⟩] ∧
     r3.state = 0 ∧ r3.data.openNests = 0 ∧ r3.data.openQuotes = ∅) := by
  decide

theorem findFromGo_cases (p : Char → Bool) (t : Text) :
    ∀ fuel j, findFromGo p t fuel j = -1 ∨
      ((j : Int) ≤ findFromGo p t fuel j ∧ findFromGo p t fuel j < textLen t) := by
  intro fuel
  induction fuel with
  | zero => intro j; left; rfl
  | succ n ih =>
    intro j
    rw [findFromGo]
    split
    · split
      · right
        constructor
        · exact le_refl _
        · rename_i hj _
          unfold textLen
          exact_mod_cast hj
      · rcases ih (j + 1) with h | h
        · left; exact h
        · right
          refine ⟨?_, h.2⟩
          have := h.1
          push_cast at this ⊢
          omega
    · left; rfl

theorem indexOfFrom_cases (p : Char → Bool) (t : Text) (i : Int) :
    indexOfFrom p t i = -1 ∨
      (0 ≤ indexOfFrom p t i ∧ i ≤ indexOfFrom p t i ∧ indexOfFrom p t i < textLen t) := by
  unfold indexOfFrom findFromNat
  rcases findFromGo_cases p t (t.length + 1) i.toNat with h | h
  · left; exact h
  · right
    refine ⟨le_trans (by positivity) h.1, le_trans (Int.self_le_toNat i) h.1, h.2⟩

theorem isEscapedQuote_neg (t : Text) (pos : Int) (b : Bool) (h : pos < 0) :
    isEscapedQuote t pos b = false := by
  unfold isEscapedQuote
  rw [if_pos (Or.inl h)]

theorem fmtAt_neg (fs : List Fmt) (i : Int) (h : i < 0) : fmtAt fs i = Fmt.dflt := by
  unfold fmtAt
  rw [if_pos h]

theorem SH_SkipQuote_neg (t : Text) (fs : List Fmt) (b : Bool) :
    SH_SkipQuote t fs (-1) b = false := by
  unfold SH_SkipQuote
  rw [isEscapedQuote_neg t _ b (by omega)]
  simp [fmtAt_neg _ _ (show (-1 : Int) < 0 by omega)]

theorem skipLoop_neg (t : Text) (fs : List Fmt) (e : QE) (b : Bool) :
    ∀ fuel, skipLoop t fs e b fuel (-1) = -1 := by
  intro fuel
  cases fuel with
  | zero => rfl
  | succ n =>
    rw [skipLoop]
    rw [SH_SkipQuote_neg]
    simp

theorem skipLoop_cases (t : Text) (fs : List Fmt) (e : QE) (b : Bool) (lo : Int) :
    ∀ fuel idx, (idx = -1 ∨ (lo ≤ idx ∧ idx < textLen t)) →
      (skipLoop t fs e b fuel idx = -1 ∨
       (lo ≤ skipLoop t fs e b fuel idx ∧ skipLoop t fs e b fuel idx < textLen t)) := by
  intro fuel
  induction fuel with
  | zero => intro idx h; exact h
  | succ n ih =>
    intro idx h
    rw [skipLoop]
    split
    · rcases h with rfl | h
      · rename_i hsk
        rw [SH_SkipQuote_neg] at hsk
        exact absurd hsk (by simp)
      · apply ih
        rcases indexOfFrom_cases (qexprChar e) t (idx + 1) with h2 | h2
        · left; exact h2
        · right; exact ⟨by omega, h2.2.2⟩
    · exact h

theorem findSQskipEsc_cases (t : Text) (lo : Int) :
    ∀ fuel e, (e = -1 ∨ (lo ≤ e ∧ e < textLen t)) →
      (findSQskipEsc t fuel e = -1 ∨
       (lo ≤ findSQskipEsc t fuel e ∧ findSQskipEsc t fuel e < textLen t)) := by
  intro fuel
  induction fuel with
  | zero => intro e h; exact h
  | succ n ih =>
    intro e h
    rw [findSQskipEsc]
    split
    · rcases h with rfl | h
      · rename_i hesc
        rw [isEscapedQuote_neg t _ _ (by omega)] at hesc
        exact absurd hesc (by simp)
      · apply ih
        rcases indexOfFrom_cases (qexprChar QE.sngl) t (e + 1) with h2 | h2
        · left; exact h2
        · right; exact ⟨by omega, h2.2.2⟩
    · exact h

theorem sqEndFrom_cases (t : Text) (s : Int) :
    sqEndFrom t s = -1 ∨ (s ≤ sqEndFrom t s ∧ sqEndFrom t s < textLen t) := by
  unfold sqEndFrom
  apply findSQskipEsc_cases
  rcases indexOfFrom_cases (qexprChar QE.sngl) t s with h | h
  · left; exact h
  · right; exact ⟨h.2.1, h.2.2⟩

theorem charAt_ne_blank (t : Text) (i : Int) (h : ¬ charAt t i = ' ') :
    0 ≤ i ∧ i < textLen t := by
  unfold charAt at h
  split at h
  · exact absurd rfl h
  · rename_i h0
    constructor
    · omega
    · by_contra hi
      have hlen : t.length ≤ i.toNat := by
        unfold textLen at hi
        omega
      rw [List.getD_eq_default _ _ hlen] at h
      exact h rfl

theorem skipCommentGo_ge (t : Text) (fs : List Fmt) :
    ∀ fuel j, j ≤ skipCommentGo t fs fuel j := by
  intro fuel
  induction fuel with
  | zero => intro j; exact le_refl j
  | succ n ih =>
    intro j
    rw [skipCommentGo]
    split
    · split
      · exact le_trans (by omega) (ih (j + 1))
      · exact le_refl j
    · exact le_refl j

theorem skipCommentFmts_idx_ge (t : Text) (st : ScanSt) :
    st.idx ≤ (skipCommentFmts t st).idx := by
  unfold skipCommentFmts skipCommentIdx
  dsimp only
  calc st.idx ≤ (st.idx.toNat : Int) := Int.self_le_toNat st.idx
    _ ≤ _ := by exact_mod_cast skipCommentGo_ge t st.fmts (t.length + 1) st.idx.toNat

theorem skipCommentFmts_idx_nonneg (t : Text) (st : ScanSt) :
    0 ≤ (skipCommentFmts t st).idx := by
  unfold skipCommentFmts
  positivity

theorem handleSingleQuote_idx (t : Text) (isHDS : Bool) (st : ScanSt)
    (h : st.idx < textLen t) :
    st.idx + 1 ≤ (handleSingleQuote t isHDS st).idx := by
  unfold handleSingleQuote
  dsimp only
  split_ifs with h1 h2 h3 h4 <;> dsimp only
  · omega
  · omega
  · omega
  · omega
  · omega
  · rcases sqEndFrom_cases t (st.idx + 1) with h5 | h5
    · omega
    · omega

theorem handleDoubleQuote_idx (t : Text) (st : ScanSt) :
    st.idx + 1 ≤ (handleDoubleQuote t st).idx := by
  unfold handleDoubleQuote
  split_ifs <;> simp

theorem handleOpenParenthesis_idx (t : Text) (st : ScanSt) :
    st.idx + 1 ≤ (handleOpenParenthesis t st).idx := by
  unfold handleOpenParenthesis
  dsimp only
  split_ifs <;> simp

theorem handleCloseParenthesis_idx (t : Text) (initNest : Int) (st : ScanSt) :
    st.idx + 1 ≤ (handleCloseParenthesis t initNest st).idx := by
  unfold handleCloseParenthesis
  split_ifs <;> simp

theorem handleCommentSign_idx (t : Text) (st : ScanSt) :
    st.idx + 1 ≤ (handleCommentSign t st).idx := by
  unfold handleCommentSign
  split_ifs <;> simp

theorem handleDefaultChar_idx (st : ScanSt) :
    st.idx + 1 ≤ (handleDefaultChar st).idx := by
  unfold handleDefaultChar
  split_ifs <;> simp

theorem ficEpilogue_idx (minOpen initNest : Int) (isHDS : Bool) (st : ScanSt) :
    (ficEpilogue minOpen initNest isHDS st).idx = st.idx := by
  unfold ficEpilogue
  dsimp only
  split_ifs <;> rfl

theorem ficLoop_idx_le (t : Text) (isHDS : Bool) :
    ∀ fuel minOpen initNest st r,
      ficLoop t isHDS minOpen initNest fuel st = some r → st.idx ≤ r.idx := by
  intro fuel
  induction fuel with
  | zero => intro _ _ _ _ h; exact absurd h (by simp [ficLoop])
  | succ n ih =>
    intro minOpen initNest st r h
    rw [ficLoop] at h
    dsimp only at h
    have hsk := skipCommentFmts_idx_ge t st
    split at h
    · rename_i hcond
      split at h
      · cases h; exact hsk
      · rename_i hlt
        have hlt2 : (skipCommentFmts t st).idx < textLen t := by omega
        split at h
        · have h2 := ih _ _ _ _ h
          have h3 := handleSingleQuote_idx t isHDS _ hlt2
          omega
        · split at h
          · have h2 := ih _ _ _ _ h
            have h3 := handleDoubleQuote_idx t (skipCommentFmts t st)
            omega
          · split at h
            · split at h
              · have h2 := ih _ _ _ _ h
                dsimp only at h2
                omega
              · split at h
                · split at h
                  · exact absurd h (by simp)
                  · rename_i stI hI
                    have h2 := ih _ _ _ _ h
                    have h3 := ih _ _ _ _ hI
                    dsimp only at h2 h3
                    rw [ficEpilogue_idx] at h2
                    omega
                · have h2 := ih _ _ _ _ h
                  dsimp only at h2
                  omega
            · split at h
              · have h2 := ih _ _ _ _ h
                have h3 := handleOpenParenthesis_idx t (skipCommentFmts t st)
                omega
              · split at h
                · have h2 := ih _ _ _ _ h
                  have h3 := handleCloseParenthesis_idx t initNest (skipCommentFmts t st)
                  omega
                · split at h
                  · have h2 := ih _ _ _ _ h
                    have h3 := handleCommentSign_idx t (skipCommentFmts t st)
                    omega
                  · have h2 := ih _ _ _ _ h
                    have h3 := handleDefaultChar_idx (skipCommentFmts t st)
                    omega
    · cases h; exact le_refl _

theorem ficLoop_idx_strict (t : Text) (isHDS : Bool) (fuel : Nat) (minOpen initNest : Int)
    (st r : ScanSt) (hn : minOpen < st.nest) (hi : st.idx < textLen t)
    (h : ficLoop t isHDS minOpen initNest fuel st = some r) : st.idx < r.idx := by
  cases fuel with
  | zero => exact absurd h (by simp [ficLoop])
  | succ n =>
    rw [ficLoop] at h
    dsimp only at h
    rw [if_pos ⟨hn, hi⟩] at h
    have hsk := skipCommentFmts_idx_ge t st
    split at h
    · cases h
      omega
    · rename_i hlt
      have hlt2 : (skipCommentFmts t st).idx < textLen t := by omega
      split at h
      · have h2 := ficLoop_idx_le t isHDS _ _ _ _ _ h
        have h3 := handleSingleQuote_idx t isHDS _ hlt2
        omega
      · split at h
        · have h2 := ficLoop_idx_le t isHDS _ _ _ _ _ h
          have h3 := handleDoubleQuote_idx t (skipCommentFmts t st)
          omega
        · split at h
          · split at h
            · have h2 := ficLoop_idx_le t isHDS _ _ _ _ _ h
              dsimp only at h2
              omega
            · split at h
              · split at h
                · exact absurd h (by simp)
                · rename_i stI hI
                  have h2 := ficLoop_idx_le t isHDS _ _ _ _ _ h
                  have h3 := ficLoop_idx_le t isHDS _ _ _ _ _ hI
                  dsimp only at h2 h3
                  rw [ficEpilogue_idx] at h2
                  omega
              · have h2 := ficLoop_idx_le t isHDS _ _ _ _ _ h
                dsimp only at h2
                omega
          · split at h
            · have h2 := ficLoop_idx_le t isHDS _ _ _ _ _ h
              have h3 := handleOpenParenthesis_idx t (skipCommentFmts t st)
              omega
            · split at h
              · have h2 := ficLoop_idx_le t isHDS _ _ _ _ _ h
                have h3 := handleCloseParenthesis_idx t initNest (skipCommentFmts t st)
                omega
              · split at h
                · have h2 := ficLoop_idx_le t isHDS _ _ _ _ _ h
                  have h3 := handleCommentSign_idx t (skipCommentFmts t st)
                  omega
                · have h2 := ficLoop_idx_le t isHDS _ _ _ _ _ h
                  have h3 := handleDefaultChar_idx (skipCommentFmts t st)
                  omega

theorem ficLoop_some (t : Text) (isHDS : Bool) :
    ∀ fuel minOpen initNest st,
      2 * (textLen t - st.idx).toNat + 1 ≤ fuel →
      (ficLoop t isHDS minOpen initNest fuel st).isSome = true := by
  intro fuel
  induction fuel with
  | zero => intro _ _ st h; omega
  | succ n ih =>
    intro minOpen initNest st h
    rw [ficLoop]
    dsimp only
    split
    · rename_i hcond
      have hsk := skipCommentFmts_idx_ge t st
      split
      · simp
      · rename_i hlt
        have hlt2 : (skipCommentFmts t st).idx < textLen t := by omega
        have hidx : st.idx < textLen t := hcond.2
        split
        · apply ih
          have h3 := handleSingleQuote_idx t isHDS _ hlt2
          omega
        · split
          · apply ih
            have h3 := handleDoubleQuote_idx t (skipCommentFmts t st)
            omega
          · split
            · split
              · apply ih
                dsimp only
                omega
              · split
                · rename_i hpar
                  have hparen : (skipCommentFmts t st).idx + 1 < textLen t := by
                    have := charAt_ne_blank t ((skipCommentFmts t st).idx + 1)
                      (by rw [hpar]; decide)
                    omega
                  have hI := ih ((skipCommentFmts t st).nest + 1 - 1) ((skipCommentFmts t st).nest + 1)
                    { fmts := paint (skipCommentFmts t st).fmts (skipCommentFmts t st).idx 2 Fmt.neutral,
                      blockState := (skipCommentFmts t st).blockState,
                      idx := (skipCommentFmts t st).idx + 2,
                      nest := (skipCommentFmts t st).nest + 1,
                      quotes := (skipCommentFmts t st).quotes,
                      paren := 0, inComment := false,
                      dquoted := decide ((skipCommentFmts t st).nest + 1 ∈ (skipCommentFmts t st).quotes) }
                    (by dsimp only; omega)
                  split
                  · rename_i heq
                    rw [heq] at hI
                    simp at hI
                  · rename_i stI heq
                    have hadv := ficLoop_idx_le t isHDS _ _ _ _ _ heq
                    dsimp only at hadv
                    apply ih
                    dsimp only
                    rw [ficEpilogue_idx]
                    omega
                · apply ih
                  dsimp only
                  omega
            · split
              · apply ih
                have h3 := handleOpenParenthesis_idx t (skipCommentFmts t st)
                omega
              · split
                · apply ih
                  have h3 := handleCloseParenthesis_idx t initNest (skipCommentFmts t st)
                  omega
                · split
                  · apply ih
                    have h3 := handleCommentSign_idx t (skipCommentFmts t st)
                    omega
                  · apply ih
                    have h3 := handleDefaultChar_idx (skipCommentFmts t st)
                    omega
    · simp

theorem mlqEndIndex_cases (t : Text) (wq : Bool) (fs : List Fmt) (expr : QE) (index : Int) :
    mlqEndIndex t wq fs expr index = -1 ∨
      (index ≤ mlqEndIndex t wq fs expr index ∧ mlqEndIndex t wq fs expr index < textLen t) := by
  unfold mlqEndIndex
  dsimp only
  split_ifs with h1
  · apply skipLoop_cases
    rcases indexOfFrom_cases (qexprChar expr) t 0 with h | h
    · left; exact h
    · right
      refine ⟨?_, h.2.2⟩
      omega
  · apply skipLoop_cases
    rcases indexOfFrom_cases (qexprChar expr) t (index + 1) with h | h
    · left; exact h
    · right
      exact ⟨by omega, h.2.2⟩

theorem mlqNextIndex_cases (t : Text) (fs : List Fmt) (hdp index quoteLength : Int)
    (hq : 1 ≤ quoteLength ∨ textLen t ≤ index + quoteLength) :
    mlqNextIndex t fs hdp index quoteLength = -1 ∨
      (index < mlqNextIndex t fs hdp index quoteLength ∧
       mlqNextIndex t fs hdp index quoteLength < textLen t) := by
  unfold mlqNextIndex
  dsimp only
  rcases indexOfFrom_cases (qexprChar QE.mixed) t (index + quoteLength) with h1 | h1
  · rw [h1, skipLoop_neg]
    split_ifs <;> left <;> rfl
  · rcases skipLoop_cases t fs QE.mixed true (index + quoteLength) (t.length + 2)
      (indexOfFrom (qexprChar QE.mixed) t (index + quoteLength))
      (Or.inr ⟨h1.2.1, h1.2.2⟩) with h2 | h2
    · rw [h2]
      split_ifs <;> left <;> rfl
    · split_ifs with h3
      · left; rfl
      · right
        rcases hq with hq | hq
        · exact ⟨by omega, h2.2⟩
        · omega

theorem mlqIter_snd_cases (t : Text) (wq : Bool) (is0 hdp : Int) (expr0 : QE) (index : Int)
    (hl : HL) :
    (mlqIter t wq is0 hdp expr0 index hl).2 = -1 ∨
      (index < (mlqIter t wq is0 hdp expr0 index hl).2 ∧
       (mlqIter t wq is0 hdp expr0 index hl).2 < textLen t) := by
  unfold mlqIter
  dsimp only
  apply mlqNextIndex_cases
  set E := (if expr0 = QE.mixed then (if charAt t index = dqC then QE.dbl else QE.sngl) else expr0)
    with hE
  by_cases he : mlqEndIndex t wq hl.fmts E index = -1
  · rw [if_pos he]
    right
    omega
  · rw [if_neg he]
    left
    rcases mlqEndIndex_cases t wq hl.fmts E index with h | h
    · exact absurd h he
    · omega

theorem mlqLoop_some_neg (t : Text) (wq : Bool) (is0 hdp : Int) (fuel : Nat) (expr : QE)
    (hl : HL) (hf : 1 ≤ fuel) :
    (mlqLoop t wq is0 hdp fuel expr (-1) hl).isSome = true := by
  cases fuel with
  | zero => omega
  | succ n =>
    rw [mlqLoop]
    rw [if_neg (by omega)]
    simp

theorem mlqLoop_some (t : Text) (wq : Bool) (is0 hdp : Int) :
    ∀ fuel expr index hl, 0 ≤ index →
      (textLen t - index).toNat + 2 ≤ fuel →
      (mlqLoop t wq is0 hdp fuel expr index hl).isSome = true := by
  intro fuel
  induction fuel with
  | zero => intro _ _ _ _ h; omega
  | succ n ih =>
    intro expr index hl h0 hb
    rw [mlqLoop]
    rw [if_pos h0]
    dsimp only
    rcases mlqIter_snd_cases t wq is0 hdp expr index hl with h1 | h1
    · rw [h1]
      apply mlqLoop_some_neg
      omega
    · apply ih _ _ _ (by omega)
      omega

theorem formatInsideCommand_some (t : Text) (isHDS : Bool) (fuel : Nat) (minOpen : Int)
    (fs : List Fmt) (b : Int) (startIdx nest : Int) (q : Finset Int)
    (hf : 2 * (textLen t - startIdx).toNat + 1 ≤ fuel) :
    (formatInsideCommand t isHDS fuel minOpen fs b startIdx nest q).isSome = true := by
  unfold formatInsideCommand
  rw [Option.isSome_map']
  exact ficLoop_some t isHDS fuel minOpen nest _ hf

theorem findDollarParenGo_cases (t : Text) :
    ∀ fuel k, findDollarParenGo t fuel k = -1 ∨
      ((k : Int) ≤ findDollarParenGo t fuel k ∧ findDollarParenGo t fuel k < textLen t) := by
  intro fuel
  induction fuel with
  | zero => intro k; left; rfl
  | succ n ih =>
    intro k
    rw [findDollarParenGo]
    split
    · split
      · right
        refine ⟨le_refl _, ?_⟩
        rename_i hk _
        unfold textLen
        exact_mod_cast hk
      · rcases ih (k + 1) with h | h
        · left; exact h
        · right
          refine ⟨?_, h.2⟩
          have := h.1
          push_cast at this ⊢
          omega
    · left; rfl

theorem formatInsideCommand_idx_ge (t : Text) (isHDS : Bool) (fuel : Nat) (minOpen : Int)
    (fs : List Fmt) (b : Int) (startIdx nest : Int) (q : Finset Int) (r : ScanSt)
    (h : formatInsideCommand t isHDS fuel minOpen fs b startIdx nest q = some r) :
    startIdx ≤ r.idx := by
  unfold formatInsideCommand at h
  rcases Option.map_eq_some'.mp h with ⟨st1, h1, rfl⟩
  rw [ficEpilogue_idx]
  exact ficLoop_idx_le t isHDS _ _ _ _ _ h1

theorem formatInsideCommand_idx_strict (t : Text) (isHDS : Bool) (fuel : Nat) (minOpen : Int)
    (fs : List Fmt) (b : Int) (startIdx nest : Int) (q : Finset Int) (r : ScanSt)
    (hn : minOpen < nest) (hi : startIdx < textLen t)
    (h : formatInsideCommand t isHDS fuel minOpen fs b startIdx nest q = some r) :
    startIdx < r.idx := by
  unfold formatInsideCommand at h
  rcases Option.map_eq_some'.mp h with ⟨st1, h1, rfl⟩
  rw [ficEpilogue_idx]
  exact ficLoop_idx_strict t isHDS _ _ _ _ _ hn hi h1

theorem csvLoop_some (t : Text) (isHDS : Bool) :
    ∀ fuel s, 0 ≤ s.sIdx → 0 ≤ s.nest →
      2 * (textLen t - s.sIdx).toNat + 6 ≤ fuel →
      (csvLoop t isHDS fuel s).isSome = true := by
  intro fuel
  induction fuel with
  | zero => intro _ _ _ h; omega
  | succ n ih =>
    intro s h0 hn hb
    rw [csvLoop]
    dsimp only
    split
    · rename_i hlen
      split
      · rename_i hz
        split
        · simp
        · rename_i hcomb
          push_neg at hcomb
          rcases findDollarParenGo_cases t (t.length + 1) s.sIdx.toNat with hp | hp
          · exact absurd hp hcomb.1
          · have hple : s.sIdx ≤ findDollarParen t s.sIdx.toNat := by
              unfold findDollarParen
              exact le_trans (Int.self_le_toNat s.sIdx) hp.1
            have hplt : findDollarParen t s.sIdx.toNat < textLen t := hp.2
            have hfic := formatInsideCommand_some t isHDS n 0
              (paint s.fmts (findDollarParen t s.sIdx.toNat) 2 Fmt.neutral) s.blockState
              (findDollarParen t s.sIdx.toNat + 2) (s.nest + 1) s.quotes (by
                unfold findDollarParen
                omega)
            rcases Option.isSome_iff_exists.mp hfic with ⟨r, hr⟩
            rw [hr]
            dsimp only
            have hadv := formatInsideCommand_idx_ge t isHDS n 0 _ _ _ _ _ _ hr
            have hng := formatInsideCommand_nest_ge t isHDS n 0 _ _ _ _ _ _ hr
            apply ih
            · dsimp only
              unfold findDollarParen at hadv hple hplt
              omega
            · dsimp only
              omega
            · dsimp only
              unfold findDollarParen at hadv hple hplt
              omega
      · rename_i hz
        have hfic := formatInsideCommand_some t isHDS n 0 s.fmts s.blockState s.sIdx s.nest
          s.quotes (by omega)
        rcases Option.isSome_iff_exists.mp hfic with ⟨r, hr⟩
        rw [hr]
        dsimp only
        have hadv := formatInsideCommand_idx_strict t isHDS n 0 s.fmts s.blockState s.sIdx s.nest
          s.quotes r (by omega) hlen hr
        have hng := formatInsideCommand_nest_ge t isHDS n 0 s.fmts s.blockState s.sIdx s.nest
          s.quotes r hr
        apply ih
        · dsimp only
          omega
        · dsimp only
          omega
        · dsimp only
          omega
    · simp

theorem csvStart_snd_nonneg (t : Text) (ps : Int) (isHDS : Bool) (n0 : Int) (hl : HL) :
    0 ≤ (csvStart t ps isHDS n0 hl).2 := by
  have h2 : textLen t = (t.length : Int) := rfl
  have h := sqEndFrom_cases t 0
  unfold csvStart closeOpenQuoteFromPreviousBlock
  split_ifs <;> (try dsimp only) <;>
    first
      | omega
      | (split_ifs <;> dsimp only <;> omega)

theorem SH_CmndSubstVar_some (t : Text) (fuel : Nat) (ps : Int) (pd : Option TBData)
    (oN : Int) (oQ : Finset Int) (hl : HL)
    (hpd : 0 ≤ (pd.map TBData.openNests).getD 0)
    (hf : 2 * t.length + 6 ≤ fuel) :
    (SH_CmndSubstVar t fuel ps pd oN oQ hl).isSome = true := by
  unfold SH_CmndSubstVar
  dsimp only
  have hs := csvLoop_some t (decide (hl.blockState < -1 ∨ endState ≤ hl.blockState)) fuel
    { fmts := (csvStart t ps (decide (hl.blockState < -1 ∨ endState ≤ hl.blockState))
                 ((Option.map TBData.openNests pd).getD 0) hl).1.fmts,
      blockState := (csvStart t ps (decide (hl.blockState < -1 ∨ endState ≤ hl.blockState))
                 ((Option.map TBData.openNests pd).getD 0) hl).1.blockState,
      sIdx := (csvStart t ps (decide (hl.blockState < -1 ∨ endState ≤ hl.blockState))
                 ((Option.map TBData.openNests pd).getD 0) hl).2,
      nest := (Option.map TBData.openNests pd).getD 0,
      quotes := (Option.map TBData.openQuotes pd).getD ∅ }
    (csvStart_snd_nonneg t ps _ _ hl) hpd
    (by
      have h1 := csvStart_snd_nonneg t ps (decide (hl.blockState < -1 ∨ endState ≤ hl.blockState))
        ((Option.map TBData.openNests pd).getD 0) hl
      have h2 : textLen t = (t.length : Int) := rfl
      dsimp only
      omega)
  rcases Option.isSome_iff_exists.mp hs with ⟨s, hs2⟩
  rw [hs2]
  simp

theorem SH_MultiLineQuote_some (t : Text) (fuel : Nat) (ps : Int) (pp : Bool) (hl : HL)
    (hf : t.length + 3 ≤ fuel) :
    (SH_MultiLineQuote t fuel ps pp hl).isSome = true := by
  unfold SH_MultiLineQuote
  dsimp only
  have h2 : textLen t = (t.length : Int) := rfl
  split
  · set HDP := (if hl.data.labelInfo ≠ [] then
        hereDocDelimSkipQuoted t (t.length + 2) (hereDocDelimFrom t 0) else -1) with hH
    set I1 := skipLoop t hl.fmts QE.mixed true (t.length + 2)
      (indexOfFrom (qexprChar QE.mixed) t 0) with hi1
    have hc : I1 = -1 ∨ (0 ≤ I1 ∧ I1 < textLen t) := by
      apply skipLoop_cases
      rcases indexOfFrom_cases (qexprChar QE.mixed) t 0 with h | h
      · left; exact h
      · right; exact ⟨h.1, h.2.2⟩
    by_cases hcut : 0 ≤ I1 ∧ HDP > -1 ∧ I1 > HDP
    · rw [if_pos hcut]
      apply mlqLoop_some_neg
      omega
    · rw [if_neg hcut]
      rcases hc with hc | hc
      · rw [hc]
        apply mlqLoop_some_neg
        omega
      · apply mlqLoop_some _ _ _ _ _ _ _ _ hc.1
        omega
  · apply mlqLoop_some _ _ _ _ _ _ _ _ (le_refl 0)
    omega

theorem classifyNormalO_some (ln : LineIn)
    (hpd : 0 ≤ (ln.prevData.map TBData.openNests).getD 0) :
    (classifyNormalO (lineFuel ln.text) ln).isSome = true := by
  unfold classifyNormalO
  dsimp only
  have h1 := SH_CmndSubstVar_some ln.text (lineFuel ln.text) ln.prevState ln.prevData
    ln.oldOpenNests ln.oldOpenQuotes
    (heredocDetect ln.text
      { fmts := List.replicate ln.text.length Fmt.dflt, blockState := 0, data := {} })
    hpd (by unfold lineFuel; omega)
  rcases Option.isSome_iff_exists.mp h1 with ⟨⟨hl2, flag⟩, h2⟩
  rw [h2]
  dsimp only
  have h3 := SH_MultiLineQuote_some ln.text (lineFuel ln.text) ln.prevState
    ((ln.prevData.map TBData.property).getD false) hl2 (by unfold lineFuel; omega)
  rcases Option.isSome_iff_exists.mp h3 with ⟨hl3, h4⟩
  rw [h4]
  simp

theorem classifyLineO_some (ln : LineIn)
    (hpd : 0 ≤ (ln.prevData.map TBData.openNests).getD 0) :
    (classifyLineO (lineFuel ln.text) ln).isSome = true := by
  unfold classifyLineO
  split
  · split
    · split
      · exact classifyNormalO_some ln hpd
      · simp
    · exact classifyNormalO_some ln hpd
  · exact classifyNormalO_some ln hpd

/-- C9: the line lexer always terminates: the whole per-line pass (the
quote-scanning loop of SH_MultiLineQuote and the mutually recursive
command-substitution scan of formatInsideCommand / handleDollarSign)
completes within fuel linear in the line length, because every loop
iteration and every recursive call strictly advances the scan position
within the line. -/
theorem lexer_terminates :
    (∀ ln : LineIn, 0 ≤ (ln.prevData.map TBData.openNests).getD 0 →
       (classifyLineO (lineFuel ln.text) ln).isSome = true) ∧
    (∀ (t : Text) (isHDS : Bool) (fuel : Nat) (minOpen initNest : Int) (st r : ScanSt),
       minOpen < st.nest → st.idx < textLen t →
       ficLoop t isHDS minOpen initNest fuel st = some r → st.idx < r.idx) :=
  ⟨fun ln hpd => classifyLineO_some ln hpd,
   fun t isHDS fuel minOpen initNest st r hn hi h =>
     ficLoop_idx_strict t isHDS fuel minOpen initNest st r hn hi h⟩

/-- Witness for C9 at the lines of Scenario C and a concrete scan state. -/
theorem lexer_terminates_witness :
    (classifyLineO (lineFuel ("VAR=".toList ++ dqC :: "$(cat<<EOF".toList))
       { text := "VAR=".toList ++ dqC :: "$(cat<<EOF".toList, prevState := -1,
         prevData := none, oldOpenNests := 0, oldOpenQuotes := ∅ }).isSome = true ∧
    (0 : Int) <
      ((ficLoop "ab".toList false 0 1 10
          ⟨List.replicate 2 Fmt.dflt, 0, 0, 1, ∅, 0, false, false⟩).getD
        ⟨[], 0, 0, 0, ∅, 0, false, false⟩).idx := by
  constructor
  · exact lexer_terminates.1
      { text := "VAR=".toList ++ dqC :: "$(cat<<EOF".toList, prevState := -1,
        prevData := none, oldOpenNests := 0, oldOpenQuotes := ∅ } (by decide)
  · exact lexer_terminates.2 "ab".toList false 10 0 1
      ⟨List.replicate 2 Fmt.dflt, 0, 0, 1, ∅, 0, false, false⟩
      ((ficLoop "ab".toList false 0 1 10
          ⟨List.replicate 2 Fmt.dflt, 0, 0, 1, ∅, 0, false, false⟩).getD
        ⟨[], 0, 0, 0, ∅, 0, false, false⟩)
      (by decide) (by decide) (by decide)

theorem extTable_pairwise :
    List.Pairwise (fun a b => ¬ a <:+ b ∧ ¬ b <:+ a)
      (extensionLanguageMap.map (fun e => lowerStr e.ext)) := by decide

theorem extTable_lower :
    extensionLanguageMap.all (fun e => lowerStr e.ext == e.ext) = true := by decide

theorem extMatches_lower_suffix (fname : Text) (e : ExtEntry)
    (hlow : lowerStr e.ext = e.ext)
    (h : extMatches fname e = true) : lowerStr e.ext <:+ lowerStr fname := by
  unfold extMatches at h
  split_ifs at h
  · rw [hlow]
    have h2 : e.ext.map Char.toLower <:+ fname.map Char.toLower :=
      (List.isSuffixOf_iff_suffix.mp h).map Char.toLower
    rw [show e.ext.map Char.toLower = lowerStr e.ext from rfl] at h2
    rw [hlow] at h2
    exact h2
  · rw [hlow]
    exact List.isSuffixOf_iff_suffix.mp h

theorem extTable_unique_match (fname : Text) (e1 e2 : ExtEntry)
    (h1 : e1 ∈ extensionLanguageMap) (h2 : e2 ∈ extensionLanguageMap)
    (m1 : extMatches fname e1 = true) (m2 : extMatches fname e2 = true) : e1 = e2 := by
  obtain ⟨i, hi, rfl⟩ := List.mem_iff_getElem.mp h1
  obtain ⟨j, hj, rfl⟩ := List.mem_iff_getElem.mp h2
  have hli : lowerStr (extensionLanguageMap[i].ext) = extensionLanguageMap[i].ext := by
    have := List.all_eq_true.mp extTable_lower extensionLanguageMap[i]
      (List.getElem_mem hi)
    exact eq_of_beq this
  have hlj : lowerStr (extensionLanguageMap[j].ext) = extensionLanguageMap[j].ext := by
    have := List.all_eq_true.mp extTable_lower extensionLanguageMap[j]
      (List.getElem_mem hj)
    exact eq_of_beq this
  have s1 := extMatches_lower_suffix fname _ hli m1
  have s2 := extMatches_lower_suffix fname _ hlj m2
  have hcomp := List.suffix_or_suffix_of_suffix s1 s2
  have hpw := List.pairwise_iff_getElem.mp extTable_pairwise
  rcases Nat.lt_trichotomy i j with hlt | heq | hgt
  · exfalso
    have hp := hpw i j (by simpa using hi) (by simpa using hj) hlt
    rw [List.getElem_map, List.getElem_map] at hp
    rcases hcomp with h | h
    · exact hp.1 h
    · exact hp.2 h
  · subst heq
    rfl
  · exfalso
    have hp := hpw j i (by simpa using hj) (by simpa using hi) hgt
    rw [List.getElem_map, List.getElem_map] at hp
    rcases hcomp with h | h
    · exact hp.2 h
    · exact hp.1 h

theorem find?_eq_of_unique {α : Type} (p : α → Bool) :
    ∀ (l : List α) (e : α), e ∈ l → p e = true → (∀ x ∈ l, p x = true → x = e) →
      l.find? p = some e := by
  intro l
  induction l with
  | nil => intro e he; cases he
  | cons a rest ih =>
    intro e he hp huniq
    cases hpa : p a with
    | true =>
      rw [List.find?_cons_of_pos _ hpa]
      rw [huniq a (List.mem_cons_self a rest) hpa]
    | false =>
      rw [List.find?_cons_of_neg _ (by simp [hpa])]
      rcases List.mem_cons.mp he with rfl | hmem
      · rw [hp] at hpa
        cases hpa
      · exact ih e hmem hp (fun x hx hxp => huniq x (List.mem_cons_of_mem a hx) hxp)

/-- C6: for every filename, the extension step selects the unique entry of
the extension table whose declared suffix matches (case-sensitively or not
as the entry declares); since no two table suffixes can match the same
filename, the selected entry carries the longest matching suffix and the
result does not depend on the textual order of the table. -/
theorem extension_longest_suffix (fname : Text) (e : ExtEntry)
    (he : e ∈ extensionLanguageMap) (hm : extMatches fname e = true) :
    languageForExtension fname = some e.language ∧
    ∀ e2 ∈ extensionLanguageMap, extMatches fname e2 = true →
      e2 = e ∧ e2.ext.length ≤ e.ext.length := by
  have huniq : ∀ x ∈ extensionLanguageMap, extMatches fname x = true → x = e :=
    fun x hx hpx => extTable_unique_match fname x e hx he hpx hm
  constructor
  · unfold languageForExtension
    rw [find?_eq_of_unique (extMatches fname) extensionLanguageMap e he hm huniq]
    rfl
  · intro e2 h2 hm2
    have h3 := huniq e2 h2 hm2
    exact ⟨h3, by rw [h3]⟩

/-- Witness for C6 at the filename prog.cpp. -/
theorem extension_longest_suffix_witness :
    languageForExtension "prog.cpp".toList = some "cpp".toList := by
  exact (extension_longest_suffix "prog.cpp".toList
    ⟨".cpp".toList, true, "cpp".toList⟩ (by decide) (by decide)).1

/-- C7: every filename ending in the reserved sidecar suffix .sub, in any
letter case, receives the fallback tag url, whatever the special-filename
table, the extension table or the sniffed media type would say. -/
theorem sub_suffix_fallback (fname : Text) (fileExists : Bool) (mimeName : Text)
    (parents : List Text) (h : ".sub".toList.isSuffixOf (lowerStr fname) = true) :
    setProgLang fname fileExists mimeName parents = "url".toList := by
  unfold setProgLang
  rw [if_pos h]

/-- Witness for C7 at the filename src/Makefile.SUB. -/
theorem sub_suffix_fallback_witness :
    setProgLang "src/Makefile.SUB".toList true "text/x-makefile".toList [] = "url".toList :=
  sub_suffix_fallback "src/Makefile.SUB".toList true "text/x-makefile".toList [] (by decide)

theorem vU1 (c : Nat) : validateUTF8 [c] =
    (if c < 0x80 then validateUTF8 []
     else if 0xC2 ≤ c ∧ c ≤ 0xDF then false
     else if 0xE0 ≤ c ∧ c ≤ 0xEF then false
     else if 0xF0 ≤ c ∧ c ≤ 0xF4 then false
     else false) := rfl

theorem vU2 (c p0 : Nat) : validateUTF8 [c, p0] =
    (if c < 0x80 then validateUTF8 [p0]
     else if 0xC2 ≤ c ∧ c ≤ 0xDF then
       (if p0 &&& 0xC0 = 0x80 then validateUTF8 [] else false)
     else if 0xE0 ≤ c ∧ c ≤ 0xEF then false
     else if 0xF0 ≤ c ∧ c ≤ 0xF4 then false
     else false) := rfl

theorem vU3 (c p0 p1 : Nat) : validateUTF8 [c, p0, p1] =
    (if c < 0x80 then validateUTF8 [p0, p1]
     else if 0xC2 ≤ c ∧ c ≤ 0xDF then
       (if p0 &&& 0xC0 = 0x80 then validateUTF8 [p1] else false)
     else if 0xE0 ≤ c ∧ c ≤ 0xEF then
       (if p0 &&& 0xC0 = 0x80 ∧ p1 &&& 0xC0 = 0x80 then
          if c = 0xE0 ∧ p0 < 0xA0 then false
          else if c = 0xED ∧ 0x9F < p0 then false
          else
            let code := ((c &&& 0x0F) <<< 12) ||| ((p0 &&& 0x3F) <<< 6) ||| (p1 &&& 0x3F)
            if 0xD800 ≤ code ∧ code ≤ 0xDFFF then false
            else validateUTF8 []
        else false)
     else if 0xF0 ≤ c ∧ c ≤ 0xF4 then false
     else false) := rfl

theorem vU4 (c p0 p1 p2 : Nat) (r4 : List Nat) :
    validateUTF8 (c :: p0 :: p1 :: p2 :: r4) =
    (if c < 0x80 then validateUTF8 (p0 :: p1 :: p2 :: r4)
     else if 0xC2 ≤ c ∧ c ≤ 0xDF then
       (if p0 &&& 0xC0 = 0x80 then validateUTF8 (p1 :: p2 :: r4) else false)
     else if 0xE0 ≤ c ∧ c ≤ 0xEF then
       (if p0 &&& 0xC0 = 0x80 ∧ p1 &&& 0xC0 = 0x80 then
          if c = 0xE0 ∧ p0 < 0xA0 then false
          else if c = 0xED ∧ 0x9F < p0 then false
          else
            let code := ((c &&& 0x0F) <<< 12) ||| ((p0 &&& 0x3F) <<< 6) ||| (p1 &&& 0x3F)
            if 0xD800 ≤ code ∧ code ≤ 0xDFFF then false
            else validateUTF8 (p2 :: r4)
        else false)
     else if 0xF0 ≤ c ∧ c ≤ 0xF4 then
       (if p0 &&& 0xC0 = 0x80 ∧ p1 &&& 0xC0 = 0x80 ∧ p2 &&& 0xC0 = 0x80 then
          if c = 0xF0 ∧ p0 < 0x90 then false
          else if c = 0xF4 ∧ 0x8F < p0 then false
          else
            let code := ((c &&& 0x07) <<< 18) ||| ((p0 &&& 0x3F) <<< 12) |||
                        ((p1 &&& 0x3F) <<< 6) ||| (p2 &&& 0x3F)
            if 0x10FFFF < code then false
            else validateUTF8 r4
        else false)
     else false) := rfl

theorem wU1 (c : Nat) : utf8WellFormed [c] =
    (if c ≤ 0x7F then utf8WellFormed []
     else if 0xC2 ≤ c ∧ c ≤ 0xDF then false
     else if 0xE0 ≤ c ∧ c ≤ 0xEF then false
     else if 0xF0 ≤ c ∧ c ≤ 0xF4 then false
     else false) := rfl

theorem wU2 (c p0 : Nat) : utf8WellFormed [c, p0] =
    (if c ≤ 0x7F then utf8WellFormed [p0]
     else if 0xC2 ≤ c ∧ c ≤ 0xDF then
       (if 0x80 ≤ p0 ∧ p0 ≤ 0xBF then utf8WellFormed [] else false)
     else if 0xE0 ≤ c ∧ c ≤ 0xEF then false
     else if 0xF0 ≤ c ∧ c ≤ 0xF4 then false
     else false) := rfl

theorem wU3 (c p0 p1 : Nat) : utf8WellFormed [c, p0, p1] =
    (if c ≤ 0x7F then utf8WellFormed [p0, p1]
     else if 0xC2 ≤ c ∧ c ≤ 0xDF then
       (if 0x80 ≤ p0 ∧ p0 ≤ 0xBF then utf8WellFormed [p1] else false)
     else if 0xE0 ≤ c ∧ c ≤ 0xEF then
       (if (if c = 0xE0 then 0xA0 ≤ p0 ∧ p0 ≤ 0xBF
            else if c = 0xED then 0x80 ≤ p0 ∧ p0 ≤ 0x9F
            else 0x80 ≤ p0 ∧ p0 ≤ 0xBF) ∧
           (0x80 ≤ p1 ∧ p1 ≤ 0xBF) then utf8WellFormed []
        else false)
     else if 0xF0 ≤ c ∧ c ≤ 0xF4 then false
     else false) := rfl

theorem wU4 (c p0 p1 p2 : Nat) (r4 : List Nat) :
    utf8WellFormed (c :: p0 :: p1 :: p2 :: r4) =
    (if c ≤ 0x7F then utf8WellFormed (p0 :: p1 :: p2 :: r4)
     else if 0xC2 ≤ c ∧ c ≤ 0xDF then
       (if 0x80 ≤ p0 ∧ p0 ≤ 0xBF then utf8WellFormed (p1 :: p2 :: r4) else false)
     else if 0xE0 ≤ c ∧ c ≤ 0xEF then
       (if (if c = 0xE0 then 0xA0 ≤ p0 ∧ p0 ≤ 0xBF
            else if c = 0xED then 0x80 ≤ p0 ∧ p0 ≤ 0x9F
            else 0x80 ≤ p0 ∧ p0 ≤ 0xBF) ∧
           (0x80 ≤ p1 ∧ p1 ≤ 0xBF) then utf8WellFormed (p2 :: r4)
        else false)
     else if 0xF0 ≤ c ∧ c ≤ 0xF4 then
       (if (if c = 0xF0 then 0x90 ≤ p0 ∧ p0 ≤ 0xBF
            else if c = 0xF4 then 0x80 ≤ p0 ∧ p0 ≤ 0x8F
            else 0x80 ≤ p0 ∧ p0 ≤ 0xBF) ∧
           (0x80 ≤ p1 ∧ p1 ≤ 0xBF) ∧ (0x80 ≤ p2 ∧ p2 ≤ 0xBF) then utf8WellFormed r4
        else false)
     else false) := rfl

theorem lor_mul_pow : ∀ (n : Nat), ∀ (x q : Nat), q < 2^n → (x * 2^n) ||| q = x * 2^n + q := by
  intro n
  induction n with
  | zero =>
    intro x q hq
    interval_cases q
    simp
  | succ n ih =>
    intro x q hq
    have hq2 : q.div2 < 2^n := by
      rw [Nat.div2_val]
      omega
    have hx : x * 2^(n+1) = Nat.bit false (x * 2^n) := by
      rw [Nat.bit_val]
      simp only [Bool.toNat_false]
      ring
    have hqb : q = Nat.bit q.bodd q.div2 := (Nat.bit_decomp q).symm
    rw [hx]
    conv_lhs => rw [hqb]
    rw [Nat.lor_bit, ih x q.div2 hq2, Nat.bit_val, Nat.bit_val]
    have h3 := Nat.bit_decomp q
    rw [Nat.bit_val] at h3
    simp only [Bool.false_or, Bool.toNat_false]
    generalize x * 2^n = m
    omega

theorem lor_shift_add (n a b : Nat) (hb : b < 2^n) : (a <<< n) ||| b = a * 2^n + b := by
  rw [Nat.shiftLeft_eq]
  exact lor_mul_pow n a b hb

theorem and_mod {k : Nat} (x : Nat) : x &&& (2^k - 1) = x % 2^k :=
  Nat.and_pow_two_sub_one_eq_mod x k

example (c p0 p1 : Nat) :
    ((c &&& 0x0F) <<< 12) ||| (((p0 &&& 0x3F) <<< 6) ||| (p1 &&& 0x3F)) =
      (c % 16) * 4096 + ((p0 % 64) * 64 + p1 % 64) := by
  have h1 : (p1 &&& 0x3F) = p1 % 64 := Nat.and_pow_two_sub_one_eq_mod p1 6
  have h2 : (p0 &&& 0x3F) = p0 % 64 := Nat.and_pow_two_sub_one_eq_mod p0 6
  have h3 : (c &&& 0x0F) = c % 16 := Nat.and_pow_two_sub_one_eq_mod c 4
  rw [h1, h2, h3]
  rw [lor_shift_add 6 (p0 % 64) (p1 % 64) (by omega)]
  rw [lor_shift_add 12 (c % 16) _ (by
    have : p0 % 64 < 64 := Nat.mod_lt _ (by omega)
    have : p1 % 64 < 64 := Nat.mod_lt _ (by omega)
    norm_num
    omega)]
  norm_num

set_option maxRecDepth 4000 in
theorem cont_iff : ∀ p < 256, (p &&& 0xC0 = 0x80 ↔ 0x80 ≤ p ∧ p ≤ 0xBF) := by decide

theorem code3_eq (c p0 p1 : Nat) :
    ((c &&& 0x0F) <<< 12) ||| ((p0 &&& 0x3F) <<< 6) ||| (p1 &&& 0x3F) =
      (c % 16) * 4096 + ((p0 % 64) * 64 + p1 % 64) := by
  rw [Nat.lor_assoc]
  rw [Nat.and_pow_two_sub_one_eq_mod p1 6, Nat.and_pow_two_sub_one_eq_mod p0 6,
      Nat.and_pow_two_sub_one_eq_mod c 4]
  rw [lor_shift_add 6 (p0 % 64) (p1 % 64) (by omega)]
  rw [lor_shift_add 12 (c % 16) _ (by
    have h1 : p0 % 64 < 64 := Nat.mod_lt _ (by omega)
    have h2 : p1 % 64 < 64 := Nat.mod_lt _ (by omega)
    norm_num
    omega)]
  norm_num

theorem code4_eq (c p0 p1 p2 : Nat) :
    ((c &&& 0x07) <<< 18) ||| ((p0 &&& 0x3F) <<< 12) ||| ((p1 &&& 0x3F) <<< 6) |||
      (p2 &&& 0x3F) =
      (c % 8) * 262144 + ((p0 % 64) * 4096 + ((p1 % 64) * 64 + p2 % 64)) := by
  rw [Nat.lor_assoc, Nat.lor_assoc]
  rw [Nat.and_pow_two_sub_one_eq_mod p2 6, Nat.and_pow_two_sub_one_eq_mod p1 6,
      Nat.and_pow_two_sub_one_eq_mod p0 6, Nat.and_pow_two_sub_one_eq_mod c 3]
  rw [lor_shift_add 6 (p1 % 64) (p2 % 64) (by omega)]
  rw [lor_shift_add 12 (p0 % 64) _ (by
    have h1 : p1 % 64 < 64 := Nat.mod_lt _ (by omega)
    have h2 : p2 % 64 < 64 := Nat.mod_lt _ (by omega)
    norm_num
    omega)]
  rw [lor_shift_add 18 (c % 8) _ (by
    have h0 : p0 % 64 < 64 := Nat.mod_lt _ (by omega)
    have h1 : p1 % 64 < 64 := Nat.mod_lt _ (by omega)
    have h2 : p2 % 64 < 64 := Nat.mod_lt _ (by omega)
    norm_num
    omega)]
  norm_num

theorem three_cond (c p0 p1 : Nat) (hc1 : 0xE0 ≤ c) (hc2 : c ≤ 0xEF)
    (hp0 : p0 < 256) (hp1 : p1 < 256) :
    ((p0 &&& 0xC0 = 0x80 ∧ p1 &&& 0xC0 = 0x80) ∧ ¬(c = 0xE0 ∧ p0 < 0xA0) ∧
      ¬(c = 0xED ∧ 0x9F < p0) ∧
      ¬(0xD800 ≤ ((c &&& 0x0F) <<< 12) ||| ((p0 &&& 0x3F) <<< 6) ||| (p1 &&& 0x3F) ∧
        ((c &&& 0x0F) <<< 12) ||| ((p0 &&& 0x3F) <<< 6) ||| (p1 &&& 0x3F) ≤ 0xDFFF)) ↔
    ((if c = 0xE0 then 0xA0 ≤ p0 ∧ p0 ≤ 0xBF
      else if c = 0xED then 0x80 ≤ p0 ∧ p0 ≤ 0x9F
      else 0x80 ≤ p0 ∧ p0 ≤ 0xBF) ∧ (0x80 ≤ p1 ∧ p1 ≤ 0xBF)) := by
  rw [code3_eq, cont_iff p0 hp0, cont_iff p1 hp1]
  split_ifs <;> omega

theorem four_cond (c p0 p1 p2 : Nat) (hc1 : 0xF0 ≤ c) (hc2 : c ≤ 0xF4)
    (hp0 : p0 < 256) (hp1 : p1 < 256) (hp2 : p2 < 256) :
    ((p0 &&& 0xC0 = 0x80 ∧ p1 &&& 0xC0 = 0x80 ∧ p2 &&& 0xC0 = 0x80) ∧
      ¬(c = 0xF0 ∧ p0 < 0x90) ∧ ¬(c = 0xF4 ∧ 0x8F < p0) ∧
      ¬(0x10FFFF < ((c &&& 0x07) <<< 18) ||| ((p0 &&& 0x3F) <<< 12) |||
          ((p1 &&& 0x3F) <<< 6) ||| (p2 &&& 0x3F))) ↔
    ((if c = 0xF0 then 0x90 ≤ p0 ∧ p0 ≤ 0xBF
      else if c = 0xF4 then 0x80 ≤ p0 ∧ p0 ≤ 0x8F
      else 0x80 ≤ p0 ∧ p0 ≤ 0xBF) ∧ (0x80 ≤ p1 ∧ p1 ≤ 0xBF) ∧
      (0x80 ≤ p2 ∧ p2 ≤ 0xBF)) := by
  rw [code4_eq, cont_iff p0 hp0, cont_iff p1 hp1, cont_iff p2 hp2]
  split_ifs <;> omega

theorem if_chain3 (A B C D : Prop) [Decidable A] [Decidable B] [Decidable C]
    [Decidable D] (v : Bool) :
    (if A then (if B then false else if C then false else (if D then false else v))
     else false) =
    (if A ∧ ¬B ∧ ¬C ∧ ¬D then v else false) := by
  split_ifs <;> first | rfl | tauto


theorem validateUTF8_eq_aux :
    ∀ (N : Nat) (l : List Nat), l.length ≤ N → (∀ b ∈ l, b < 256) →
      validateUTF8 l = utf8WellFormed l := by
  intro N
  induction N with
  | zero =>
    intro l hl _
    match l with
    | [] => rfl
    | c :: rest => simp at hl
  | succ N ih =>
    intro l hl hb
    match l with
    | [] => rfl
    | [c] =>
      rw [vU1, wU1]
      by_cases h1 : c < 0x80
      · rw [if_pos h1, if_pos (show c ≤ 0x7F by omega)]
        rfl
      · rw [if_neg h1, if_neg (show ¬ c ≤ 0x7F by omega)]
    | [c, p0] =>
      have hp0 : p0 < 256 := hb p0 (by simp)
      rw [vU2, wU2]
      by_cases h1 : c < 0x80
      · rw [if_pos h1, if_pos (show c ≤ 0x7F by omega),
          ih [p0] (by simp at hl ⊢; omega)
            (by intro b hbm; apply hb; simp at hbm ⊢; tauto)]
      · rw [if_neg h1, if_neg (show ¬ c ≤ 0x7F by omega)]
        by_cases h2 : 0xC2 ≤ c ∧ c ≤ 0xDF
        · rw [if_pos h2, if_pos h2, if_congr (cont_iff p0 hp0) rfl rfl]
          rfl
        · rw [if_neg h2, if_neg h2]
    | [c, p0, p1] =>
      have hp0 : p0 < 256 := hb p0 (by simp)
      have hp1 : p1 < 256 := hb p1 (by simp)
      rw [vU3, wU3]
      by_cases h1 : c < 0x80
      · rw [if_pos h1, if_pos (show c ≤ 0x7F by omega),
          ih [p0, p1] (by simp at hl ⊢; omega)
            (by intro b hbm; apply hb; simp at hbm ⊢; tauto)]
      · rw [if_neg h1, if_neg (show ¬ c ≤ 0x7F by omega)]
        by_cases h2 : 0xC2 ≤ c ∧ c ≤ 0xDF
        · rw [if_pos h2, if_pos h2, if_congr (cont_iff p0 hp0)
            (ih [p1] (by simp at hl ⊢; omega)
              (by intro b hbm; apply hb; simp at hbm ⊢; tauto)) rfl]
          try rfl
        · rw [if_neg h2, if_neg h2]
          by_cases h3 : 0xE0 ≤ c ∧ c ≤ 0xEF
          · rw [if_pos h3, if_pos h3]
            dsimp only
            rw [if_chain3, if_congr (three_cond c p0 p1 h3.1 h3.2 hp0 hp1) rfl rfl]
            rfl
          · rw [if_neg h3, if_neg h3]
    | c :: p0 :: p1 :: p2 :: r4 =>
      have hp0 : p0 < 256 := hb p0 (by simp)
      have hp1 : p1 < 256 := hb p1 (by simp)
      have hp2 : p2 < 256 := hb p2 (by simp)
      rw [vU4, wU4]
      by_cases h1 : c < 0x80
      · rw [if_pos h1, if_pos (show c ≤ 0x7F by omega),
          ih (p0 :: p1 :: p2 :: r4) (by simp at hl ⊢; omega)
            (by intro b hbm; apply hb; simp at hbm ⊢; tauto)]
      · rw [if_neg h1, if_neg (show ¬ c ≤ 0x7F by omega)]
        by_cases h2 : 0xC2 ≤ c ∧ c ≤ 0xDF
        · rw [if_pos h2, if_pos h2, if_congr (cont_iff p0 hp0)
            (ih (p1 :: p2 :: r4) (by simp at hl ⊢; omega)
              (by intro b hbm; apply hb; simp at hbm ⊢; tauto)) rfl]
          try rfl
        · rw [if_neg h2, if_neg h2]
          by_cases h3 : 0xE0 ≤ c ∧ c ≤ 0xEF
          · rw [if_pos h3, if_pos h3]
            dsimp only
            rw [if_chain3, if_congr (three_cond c p0 p1 h3.1 h3.2 hp0 hp1)
              (ih (p2 :: r4) (by simp at hl ⊢; omega)
                (by intro b hbm; apply hb; simp at hbm ⊢; tauto)) rfl]
            try rfl
          · rw [if_neg h3, if_neg h3]
            by_cases h4 : 0xF0 ≤ c ∧ c ≤ 0xF4
            · rw [if_pos h4, if_pos h4]
              dsimp only
              rw [if_chain3, if_congr (four_cond c p0 p1 p2 h4.1 h4.2 hp0 hp1 hp2)
                (ih r4 (by simp at hl ⊢; omega)
                  (by intro b hbm; apply hb; simp at hbm ⊢; tauto)) rfl]
              try rfl
            · rw [if_neg h4, if_neg h4]

/-- C10: validateUTF8 agrees with the Unicode well-formedness table on every
byte array, and detectCharset answers UTF-8 exactly on the well-formed
arrays and ISO-8859-1 on all others, never failing. -/
theorem validateUTF8_correct (bytes : List Nat) (h : ∀ b ∈ bytes, b < 256) :
    validateUTF8 bytes = utf8WellFormed bytes ∧
    (detectCharset bytes = "UTF-8" ↔ utf8WellFormed bytes = true) ∧
    (detectCharset bytes = "UTF-8" ∨ detectCharset bytes = "ISO-8859-1") := by
  have he := validateUTF8_eq_aux bytes.length bytes le_rfl h
  refine ⟨he, ?_, ?_⟩
  · unfold detectCharset
    rw [he]
    by_cases hw : utf8WellFormed bytes = true
    · rw [if_pos hw]
      simp [hw]
    · rw [if_neg hw]
      constructor
      · intro hx
        exact absurd hx (by decide)
      · intro hx
        exact absurd hx hw
  · unfold detectCharset
    split_ifs
    · exact Or.inl rfl
    · exact Or.inr rfl

/-- Witness for C10 at a mixed ASCII and two-byte sequence. -/
theorem validateUTF8_correct_witness :
    validateUTF8 [0x61, 0xC3, 0xA9] = utf8WellFormed [0x61, 0xC3, 0xA9] ∧
    (detectCharset [0x61, 0xC3, 0xA9] = "UTF-8" ↔
      utf8WellFormed [0x61, 0xC3, 0xA9] = true) ∧
    (detectCharset [0x61, 0xC3, 0xA9] = "UTF-8" ∨
      detectCharset [0x61, 0xC3, 0xA9] = "ISO-8859-1") :=
  validateUTF8_correct [0x61, 0xC3, 0xA9] (by decide)
